import Mathlib

/-!
Verification of the ApiBridgePro gateway against its specification.

The Python source is shallowly embedded: Python `str` values become
`List Char`, byte strings become `List Nat` (each entry < 256), floats that
only ever hold exact decimal amounts (timestamps, token counts, USD costs)
become `ℚ`, Python `int` becomes `ℕ`/`ℤ`, dictionaries become association
lists (insertion ordered, assignment overwrites in place like a Python
dict), and fallible operations return `Option`.  External collaborators
(the regex engine behind auto_scan, the Fernet cipher, jmespath's search,
pydantic validation, orjson serialisation, the upstream HTTP world) are
parameters of the embedding; all code of the repository itself is
translated definition by definition.
-/

namespace ApiBridge

/-! ### Bytes and UTF-8 (model of Python str.encode()) -/

/-- UTF-8 encoding of a single character (model of Python's str.encode
for one code point). -/
def utf8Char (c : Char) : List Nat :=
  let n := c.toNat
  if n < 128 then [n]
  else if n < 2048 then [192 ||| (n >>> 6), 128 ||| (n &&& 63)]
  else if n < 65536 then
    [224 ||| (n >>> 12), 128 ||| ((n >>> 6) &&& 63), 128 ||| (n &&& 63)]
  else
    [240 ||| (n >>> 18), 128 ||| ((n >>> 12) &&& 63),
     128 ||| ((n >>> 6) &&& 63), 128 ||| (n &&& 63)]

/-- UTF-8 encoding of a string (Python `value.encode()`). -/
def utf8Encode (s : List Char) : List Nat :=
  s.foldr (fun c acc => utf8Char c ++ acc) []

/-! ### SHA-256 (model of hashlib.sha256, executable) -/

def w32 : Nat := 4294967295

def add32 (x y : Nat) : Nat := (x + y) &&& w32

def rotr (n x : Nat) : Nat := ((x >>> n) ||| (x <<< (32 - n))) &&& w32

def shaCh (x y z : Nat) : Nat := (x &&& y) ^^^ ((x ^^^ w32) &&& z)

def shaMaj (x y z : Nat) : Nat := (x &&& y) ^^^ (x &&& z) ^^^ (y &&& z)

def bigSigma0 (x : Nat) : Nat := rotr 2 x ^^^ rotr 13 x ^^^ rotr 22 x

def bigSigma1 (x : Nat) : Nat := rotr 6 x ^^^ rotr 11 x ^^^ rotr 25 x

def smallSigma0 (x : Nat) : Nat := rotr 7 x ^^^ rotr 18 x ^^^ (x >>> 3)

def smallSigma1 (x : Nat) : Nat := rotr 17 x ^^^ rotr 19 x ^^^ (x >>> 10)

def shaK : List Nat :=
  [1116352408, 1899447441, 3049323471, 3921009573, 961987163, 1508970993,
   2453635748, 2870763221, 3624381080, 310598401, 607225278, 1426881987,
   1925078388, 2162078206, 2614888103, 3248222580, 3835390401, 4022224774,
   264347078, 604807628, 770255983, 1249150122, 1555081692, 1996064986,
   2554220882, 2821834349, 2952996808, 3210313671, 3336571891, 3584528711,
   113926993, 338241895, 666307205, 773529912, 1294757372, 1396182291,
   1695183700, 1986661051, 2177026350, 2456956037, 2730485921, 2820302411,
   3259730800, 3345764771, 3516065817, 3600352804, 4094571909, 275423344,
   430227734, 506948616, 659060556, 883997877, 958139571, 1322822218,
   1537002063, 1747873779, 1955562222, 2024104815, 2227730452, 2361852424,
   2428436474, 2756734187, 3204031479, 3329325298]

/-- The eight 32-bit hash words. -/
structure Hash8 where
  a : Nat
  b : Nat
  c : Nat
  d : Nat
  e : Nat
  f : Nat
  g : Nat
  h : Nat
deriving Repr, DecidableEq

def shaInit : Hash8 :=
  ⟨1779033703, 3144134277, 1013904242, 2773480762,
   1359893119, 2600822924, 528734635, 1541459225⟩

/-- Big-endian 64-bit encoding of the bit length. -/
def be64 (n : Nat) : List Nat :=
  [(n >>> 56) &&& 255, (n >>> 48) &&& 255, (n >>> 40) &&& 255,
   (n >>> 32) &&& 255, (n >>> 24) &&& 255, (n >>> 16) &&& 255,
   (n >>> 8) &&& 255, n &&& 255]

/-- SHA-256 padding: append 0x80, zeros to 56 mod 64, then the bit length. -/
def shaPad (msg : List Nat) : List Nat :=
  let len := msg.length
  let zeros := (119 - len % 64) % 64
  msg ++ [128] ++ List.replicate zeros 0 ++ be64 (8 * len)

/-- Split the padded message into 64-byte blocks. -/
def toBlocks (l : List Nat) : List (List Nat) :=
  if l.isEmpty then []
  else l.take 64 :: toBlocks (l.drop 64)
termination_by l.length
decreasing_by
  rename_i hne
  simp [List.isEmpty_iff] at hne
  have hpos : 0 < l.length := List.length_pos.mpr hne
  simp [List.length_drop]
  omega

/-- Combine four big-endian bytes into 32-bit words. -/
def toWords : List Nat → List Nat
  | b0 :: b1 :: b2 :: b3 :: rest =>
      ((((b0 <<< 8) ||| b1) <<< 8 ||| b2) <<< 8 ||| b3) :: toWords rest
  | _ => []

/-- The 64-entry message schedule. -/
def schedule (block : List Nat) : Array Nat :=
  let w0 := (toWords block).toArray
  (List.range 48).foldl
    (fun w _ =>
      let i := w.size
      w.push (add32 (add32 (smallSigma1 (w.getD (i - 2) 0)) (w.getD (i - 7) 0))
                    (add32 (smallSigma0 (w.getD (i - 15) 0)) (w.getD (i - 16) 0))))
    w0

/-- One round of the SHA-256 compression function. -/
def shaRound (ws : Array Nat) (st : Hash8) (i : Nat) : Hash8 :=
  let t1 := add32 (add32 (add32 st.h (bigSigma1 st.e))
                         (add32 (shaCh st.e st.f st.g) (shaK.getD i 0)))
                  (ws.getD i 0)
  let t2 := add32 (bigSigma0 st.a) (shaMaj st.a st.b st.c)
  ⟨add32 t1 t2, st.a, st.b, st.c, add32 st.d t1, st.e, st.f, st.g⟩

/-- Compress one 64-byte block into the running hash. -/
def shaCompress (hs : Hash8) (block : List Nat) : Hash8 :=
  let ws := schedule block
  let fin := (List.range 64).foldl (shaRound ws) hs
  ⟨add32 hs.a fin.a, add32 hs.b fin.b, add32 hs.c fin.c, add32 hs.d fin.d,
   add32 hs.e fin.e, add32 hs.f fin.f, add32 hs.g fin.g, add32 hs.h fin.h⟩

/-- SHA-256 of a byte string, as eight 32-bit words. -/
def sha256 (msg : List Nat) : Hash8 :=
  (toBlocks (shaPad msg)).foldl shaCompress shaInit

def hexChar (n : Nat) : Char :=
  if n < 10 then Char.ofNat (48 + n) else Char.ofNat (87 + n)

/-- Eight lowercase hex characters of one 32-bit word. -/
def wordHex (x : Nat) : List Char :=
  [hexChar ((x >>> 28) &&& 15), hexChar ((x >>> 24) &&& 15),
   hexChar ((x >>> 20) &&& 15), hexChar ((x >>> 16) &&& 15),
   hexChar ((x >>> 12) &&& 15), hexChar ((x >>> 8) &&& 15),
   hexChar ((x >>> 4) &&& 15), hexChar (x &&& 15)]

/-- Model of hashlib.sha256(value.encode()).hexdigest(). -/
def hexdigest (value : List Char) : List Char :=
  let d := sha256 (utf8Encode value)
  wordHex d.a ++ wordHex d.b ++ wordHex d.c ++ wordHex d.d ++
  wordHex d.e ++ wordHex d.f ++ wordHex d.g ++ wordHex d.h

/-! ### PII firewall (src/app/pii_firewall.py) -/

/-- The four PII actions. -/
inductive PIIAction where
  | redact
  | tokenize
  | encrypt
  | hash
deriving Repr, DecidableEq

/-- PIIFirewall.redact: keep first and last char, star the middle;
strings of length ≤ 2 become all stars; empty input returned unchanged. -/
def redact (value : List Char) : List Char :=
  if value = [] then value
  else if value.length ≤ 2 then List.replicate value.length '*'
  else value.take 1 ++ List.replicate (value.length - 2) '*' ++
       value.drop (value.length - 1)

/-- PIIFirewall.tokenize: "TOK_" + hex(sha256(value))[:16]; empty input
returned unchanged. -/
def tokenize (value : List Char) : List Char :=
  if value = [] then value
  else ['T', 'O', 'K', '_'] ++ (hexdigest value).take 16

/-- PIIFirewall.hash_value: "HASH_" + hex(sha256(value))[:16]; empty input
returned unchanged. -/
def hash_value (value : List Char) : List Char :=
  if value = [] then value
  else ['H', 'A', 'S', 'H', '_'] ++ (hexdigest value).take 16

/-- PIIFirewall.encrypt: empty input returned unchanged, otherwise the
Fernet cipher (an external collaborator, passed as `cipher`) applied to
the value. -/
def pyEncrypt (cipher : List Char → List Char) (value : List Char) : List Char :=
  if value = [] then value else cipher value

/-- JSON values (the parsed bodies the firewall and the pipeline process).
Python dicts keep insertion order, so objects are association lists. -/
inductive Json where
  | null
  | bool (b : Bool)
  | num (q : ℚ)
  | str (s : List Char)
  | arr (items : List Json)
  | obj (fields : List (List Char × Json))

instance : Inhabited Json := ⟨Json.null⟩

/-- PIIFirewall.apply_action: non-string values are returned unchanged;
strings are transformed per the action. -/
def apply_action (cipher : List Char → List Char) (value : Json)
    (action : PIIAction) : Json :=
  match value with
  | .str s =>
      match action with
      | .redact => .str (redact s)
      | .tokenize => .str (tokenize s)
      | .encrypt => .str (pyEncrypt cipher s)
      | .hash => .str (hash_value s)
  | v => v

/-- Dict-membership lookup in the field_rules mapping. -/
def ruleFind (rules : List (List Char × PIIAction)) (k : List Char) :
    Option PIIAction :=
  (rules.find? (fun r => r.1 = k)).map (·.2)

/-- Python k.split('.', 1)[1]: everything after the first dot. -/
def afterFirstDot : List Char → List Char
  | [] => []
  | '.' :: rest => rest
  | _ :: rest => afterFirstDot rest

/-- The rewritten rules for recursion into the value of `key`:
rules whose key starts with "<key>." keep the part after the first dot. -/
def nestedRules (rules : List (List Char × PIIAction)) (key : List Char) :
    List (List Char × PIIAction) :=
  rules.filterMap (fun r =>
    if (key ++ ['.']).isPrefixOf r.1 ∧ r.1.contains '.' then
      some (afterFirstDot r.1, r.2)
    else none)

mutual

/-- PIIFirewall.process_dict: apply the dotted field rules to a JSON value
(non-dicts are returned unchanged). -/
def process_dict (cipher : List Char → List Char) (data : Json)
    (rules : List (List Char × PIIAction)) : Json :=
  match data with
  | .obj fields => .obj (processFields cipher fields rules)
  | v => v

/-- One level of process_dict over the entries of a dict. -/
def processFields (cipher : List Char → List Char)
    (fields : List (List Char × Json))
    (rules : List (List Char × PIIAction)) : List (List Char × Json) :=
  match fields with
  | [] => []
  | (k, v) :: rest => (k, processValue cipher k v rules) ::
      processFields cipher rest rules

/-- The per-entry branch of process_dict: an exact-key rule wins, else
recurse per the shape of the value. -/
def processValue (cipher : List Char → List Char) (k : List Char) (v : Json)
    (rules : List (List Char × PIIAction)) : Json :=
  match ruleFind rules k with
  | some a => apply_action cipher v a
  | none => processNested cipher k v rules

/-- The no-exact-rule branch: recurse into dicts (with rewritten rules)
and into list elements that are dicts (with the same rules), else pass
through. -/
def processNested (cipher : List Char → List Char) (k : List Char) (v : Json)
    (rules : List (List Char × PIIAction)) : Json :=
  match v with
  | .obj fs => .obj (processFields cipher fs (nestedRules rules k))
  | .arr items => .arr (processItems cipher items rules)
  | other => other

/-- process_dict mapped over the elements of a list value. -/
def processItems (cipher : List Char → List Char) (items : List Json)
    (rules : List (List Char × PIIAction)) : List Json :=
  match items with
  | [] => []
  | it :: rest =>
      (match it with
       | .obj fs => .obj (processFields cipher fs rules)
       | other => other) :: processItems cipher rest rules

end

mutual

/-- auto_scan: walk the structure and scan every string leaf.  The
per-string pattern scan (scan_and_protect_patterns) drives an external
regex engine, so it is a parameter `scan` of the walk. -/
def auto_scan (scan : List Char → PIIAction → List Char) (data : Json)
    (action : PIIAction) : Json :=
  match data with
  | .str s => .str (scan s action)
  | .obj fields => .obj (autoScanFields scan fields action)
  | .arr items => .arr (autoScanItems scan items action)
  | v => v

/-- auto_scan over the entries of a dict. -/
def autoScanFields (scan : List Char → PIIAction → List Char)
    (fields : List (List Char × Json)) (action : PIIAction) :
    List (List Char × Json) :=
  match fields with
  | [] => []
  | (k, v) :: rest =>
      (k, auto_scan scan v action) :: autoScanFields scan rest action

/-- auto_scan over the elements of a list. -/
def autoScanItems (scan : List Char → PIIAction → List Char)
    (items : List Json) (action : PIIAction) : List Json :=
  match items with
  | [] => []
  | it :: rest => auto_scan scan it action :: autoScanItems scan rest action

end

/-! ### Circuit breaker and health registry (src/app/health.py) -/

/-- Circuit breaker states (the strings "CLOSED", "OPEN", "HALF_OPEN"). -/
inductive BState where
  | CLOSED
  | OPEN
  | HALF_OPEN
deriving Repr, DecidableEq

/-- CircuitBreaker attributes.  time.time() is modelled as an explicit
rational-valued clock passed to each method. -/
structure CircuitBreaker where
  failure_count : ℕ
  failure_threshold : ℕ
  recovery_timeout : ℚ
  state : BState
  last_failure_time : ℚ
  last_success_time : ℚ
deriving Repr, DecidableEq

/-- CircuitBreaker.__init__ (defaults failure_threshold=5,
recovery_timeout=60 at every construction site in the source). -/
def CircuitBreaker.init (failure_threshold : ℕ) (recovery_timeout : ℚ)
    (now : ℚ) : CircuitBreaker :=
  ⟨0, failure_threshold, recovery_timeout, .CLOSED, 0, now⟩

/-- CircuitBreaker.should_attempt: returns the decision and the (possibly
mutated) breaker — OPEN flips to HALF_OPEN once the recovery timeout has
strictly elapsed. -/
def CircuitBreaker.should_attempt (b : CircuitBreaker) (now : ℚ) :
    Bool × CircuitBreaker :=
  match b.state with
  | .CLOSED => (true, b)
  | .OPEN =>
      if now - b.last_failure_time > b.recovery_timeout then
        (true, { b with state := .HALF_OPEN })
      else (false, b)
  | .HALF_OPEN => (true, b)

/-- CircuitBreaker.record_success. -/
def CircuitBreaker.record_success (b : CircuitBreaker) (now : ℚ) :
    CircuitBreaker :=
  { b with failure_count := 0, state := .CLOSED, last_success_time := now }

/-- CircuitBreaker.record_failure. -/
def CircuitBreaker.record_failure (b : CircuitBreaker) (now : ℚ) :
    CircuitBreaker :=
  let c := b.failure_count + 1
  { b with failure_count := c, last_failure_time := now,
           state := if c ≥ b.failure_threshold then .OPEN else b.state }

/-- One _health entry.  Every construction site in the source supplies a
circuit breaker, so the defensive "circuit_breaker" in h checks of the
source are always true and the breaker is a plain field.  `avg` stays a
natural number: it is seeded with an integer latency and every update
applies int() to the IEEE binary64 value of 0.7*avg + 0.3*latency. -/
structure HealthEntry where
  healthy : Bool
  avg : ℕ
  ts : ℚ
  breaker : CircuitBreaker
deriving Repr, DecidableEq

/-- The _health dict. -/
def HealthMap := List (String × HealthEntry)

instance : DecidableEq HealthMap := by
  unfold HealthMap
  infer_instance

def hLookup (m : HealthMap) (k : String) : Option HealthEntry :=
  (List.find? (fun e => e.1 = k) m).map (·.2)

/-- Python dict assignment: overwrite in place, else append. -/
def hInsert (m : HealthMap) (k : String) (v : HealthEntry) : HealthMap :=
  match m with
  | [] => [(k, v)]
  | (k2, v2) :: rest =>
      if k2 = k then (k, v) :: rest else (k2, v2) :: hInsert rest k v

/-! ### IEEE-754 binary64 arithmetic

CPython evaluates 0.7 * avg + 0.3 * latency in double precision: each
literal, int-to-float conversion, product and sum is rounded to 53
significant bits (round to nearest, ties to even).  All values here are
nonnegative, so a double is modelled exactly as a dyadic pair (m, k)
standing for m / 2^k; exponent overflow and subnormals are out of the
range these computations can reach. -/

/-- Bit length of n, by recursion on a fuel argument (a bare Nat.rec,
which reduces lazily); fuel 1100 covers every magnitude a finite
binary64 computation can produce. -/
def bitlen (fuel : ℕ) : ℕ → ℕ :=
  @Nat.rec (fun _ => ℕ → ℕ) (fun _ => 0)
    (fun _ ih n => if n = 0 then 0 else ih (n / 2) + 1) fuel

/-- Round the dyadic m / 2^k to 53 significant bits, ties to even: the
IEEE-754 rounding CPython applies after every float operation. -/
def fnorm (m k : ℕ) : ℕ × ℕ :=
  let b := bitlen 1100 m
  if b ≤ 53 then (m, k)
  else
    let s := b - 53
    let q := m >>> s
    let r := m % 2 ^ s
    let half := 2 ^ (s - 1)
    let q2 := if r < half then q
      else if half < r then q + 1
      else if q % 2 = 0 then q else q + 1
    if s ≤ k then (q2, k - s) else (q2 * 2 ^ (s - k), 0)

/-- Double multiplication: exact product, then one rounding. -/
def dmul (x y : ℕ × ℕ) : ℕ × ℕ := fnorm (x.1 * y.1) (x.2 + y.2)

/-- Double addition (both operands nonnegative): exact sum, then one
rounding. -/
def dadd (x y : ℕ × ℕ) : ℕ × ℕ :=
  let k := max x.2 y.2
  fnorm (x.1 * 2 ^ (k - x.2) + y.1 * 2 ^ (k - y.2)) k

/-- Python int-to-float conversion (rounds once past 2^53). -/
def toD (n : ℕ) : ℕ × ℕ := fnorm n 0

/-- Python int() on a nonnegative double: truncation toward zero. -/
def dtrunc (x : ℕ × ℕ) : ℕ := x.1 >>> x.2

/-- The binary64 value of the literal 0.7: 3152519739159347 / 2^52. -/
def c07 : ℕ × ℕ := (3152519739159347, 52)

/-- The binary64 value of the literal 0.3: 5404319552844595 / 2^54. -/
def c03 : ℕ × ℕ := (5404319552844595, 54)

/-- int(0.7 * a + 0.3 * s) exactly as CPython computes it on doubles. -/
def fpEMA (a s : ℕ) : ℕ := dtrunc (dadd (dmul c07 (toD a)) (dmul c03 (toD s)))

/-- health.mark_success: upsert the entry (setdefault seeds avg with the
sample), then apply the EMA update int(0.7*avg + 0.3*latency) in IEEE
binary64 arithmetic, set healthy, and record the success in the
breaker. -/
def mark_success (m : HealthMap) (pkey : String) (latency : ℕ) (now : ℚ) :
    HealthMap :=
  let e := (hLookup m pkey).getD
    ⟨true, latency, now, CircuitBreaker.init 5 60 now⟩
  let e2 : HealthEntry :=
    { e with avg := fpEMA e.avg latency,
             healthy := true, ts := now,
             breaker := e.breaker.record_success now }
  hInsert m pkey e2

/-- health.mark_failure. -/
def mark_failure (m : HealthMap) (pkey : String) (now : ℚ) : HealthMap :=
  let e := (hLookup m pkey).getD
    ⟨false, 9999, now, CircuitBreaker.init 5 60 now⟩
  let e2 : HealthEntry :=
    { e with healthy := false, ts := now,
             breaker := e.breaker.record_failure now }
  hInsert m pkey e2

/-- health.should_attempt_provider: true for unknown providers, else the
breaker decides (threading the breaker's OPEN → HALF_OPEN mutation). -/
def should_attempt_provider (m : HealthMap) (pkey : String) (now : ℚ) :
    Bool × HealthMap :=
  match hLookup m pkey with
  | none => (true, m)
  | some e =>
      let r := e.breaker.should_attempt now
      (r.1, hInsert m pkey { e with breaker := r.2 })

/-- The recognized auth configuration variants (gateway._apply_auth
dispatches on cfg["type"]; an empty or unrecognized cfg, which the code
leaves headers and params untouched for, is modelled as `none` at the
use sites).  scope and extra_params only affect the external token
request body, which is behind the oauth token oracle. -/
inductive AuthCfg where
  | api_key_header (name value : String)
  | api_key_query (name value : String)
  | bearer (tok : String)
  | oauth2_client_credentials (token_url client_id client_secret : String)
deriving Repr, DecidableEq

/-- A provider dict as built by ConnectorPolicy (__key =
"<connector>:<name>"; weight defaults to 1 at the call sites that omit
it, modelled by storing the result of p.get("weight", 1)). -/
structure Provider where
  name : String
  base_url : String
  weight : ℤ
  key : String
  auth : Option AuthCfg := none
deriving Repr, DecidableEq

/-- The circuit penalty of pick_best's sort key. -/
def circuitPenalty : BState → ℤ
  | .OPEN => 100000
  | .HALF_OPEN => 50000
  | .CLOSED => 0

/-- pick_best's composite sort key (Python tuple, compared
lexicographically): missing entries count as healthy with avg 9999 and
no breaker (penalty 0). -/
def sortKey (m : HealthMap) (p : Provider) : ℕ × ℤ :=
  match hLookup m p.key with
  | none => (0, 9999 - p.weight * 10)
  | some e =>
      ((if e.healthy then 0 else 1),
       circuitPenalty e.breaker.state + (e.avg : ℤ) - p.weight * 10)

/-- Lexicographic ≤ on the sort key (Python tuple comparison). -/
def keyLe (a b : ℕ × ℤ) : Bool :=
  a.1 < b.1 ∨ (a.1 = b.1 ∧ a.2 ≤ b.2)

/-- The circuit-breaker filter of pick_best, threading the health map
through should_attempt_provider in provider order. -/
def pickFiltered (providers : List Provider) (m : HealthMap) (now : ℚ) :
    List Provider × HealthMap :=
  providers.foldl
    (fun acc p =>
      let r := should_attempt_provider acc.2 p.key now
      (if r.1 then acc.1 ++ [p] else acc.1, r.2))
    ([], m)

/-- health.pick_best: filter by should_attempt, fall back to the original
list if the filter empties it, then sort by the composite key (Python's
sorted is a stable merge sort). -/
def pick_best (providers : List Provider) (m : HealthMap) (now : ℚ) :
    List Provider × HealthMap :=
  let fm := pickFiltered providers m now
  let available := if fm.1.isEmpty then providers else fm.1
  (available.mergeSort (fun a b => keyLe (sortKey fm.2 a) (sortKey fm.2 b)),
   fm.2)

/-! ### Generic dict model (insertion-ordered association lists) -/

/-- Python dict lookup: the unique (first) binding of the key. -/
def dLookup {κ α : Type} [DecidableEq κ] (m : List (κ × α)) (k : κ) :
    Option α :=
  (List.find? (fun e => e.1 = k) m).map (·.2)

/-- Python dict assignment d[k] = v: overwrite in place, else append. -/
def dInsert {κ α : Type} [DecidableEq κ] (m : List (κ × α)) (k : κ) (v : α) :
    List (κ × α) :=
  match m with
  | [] => [(k, v)]
  | (k2, v2) :: rest =>
      if k2 = k then (k, v) :: rest else (k2, v2) :: dInsert rest k v

/-- Python dict.update(upd). -/
def dUpdate {κ α : Type} [DecidableEq κ] (m upd : List (κ × α)) :
    List (κ × α) :=
  upd.foldl (fun acc e => dInsert acc e.1 e.2) m

/-- Python dict.pop(k, None). -/
def dPop {κ α : Type} [DecidableEq κ] (m : List (κ × α)) (k : κ) :
    List (κ × α) :=
  m.filter (fun e => ¬ e.1 = k)

/-- HTTP header dicts. -/
def Headers := List (String × String)

instance : DecidableEq Headers := by
  unfold Headers
  infer_instance

instance : Repr Headers := by
  unfold Headers
  infer_instance

/-! ### Token bucket (app/util.py) and rate limiter (src/app/rate_limit.py) -/

/-- TokenBucket state; floats carry exact values here (timestamps and
token counts), modelled as ℚ. -/
structure TokenBucket where
  capacity : ℕ
  refill : ℚ
  tokens : ℚ
  last : ℚ
deriving Repr, DecidableEq

/-- TokenBucket.__init__(capacity, refill_per_sec) at time `now`. -/
def TokenBucket.init (capacity : ℕ) (refill now : ℚ) : TokenBucket :=
  ⟨capacity, refill, capacity, now⟩

/-- TokenBucket.allow: refill by elapsed time, cap at capacity, spend one
token if at least one is available. -/
def TokenBucket.allow (b : TokenBucket) (now : ℚ) : Bool × TokenBucket :=
  let t := min (b.capacity : ℚ) (b.tokens + (now - b.last) * b.refill)
  if t ≥ 1 then (true, { b with tokens := t - 1, last := now })
  else (false, { b with tokens := t, last := now })

/-- rate_limit.allow (the synchronous, in-memory-only version): setdefault
the named bucket then run its allow. -/
def rl_allow (buckets : List (String × TokenBucket)) (name : String)
    (capacity : ℕ) (refill_per_sec now : ℚ) :
    Bool × List (String × TokenBucket) :=
  let b := (dLookup buckets name).getD
    (TokenBucket.init capacity refill_per_sec now)
  let r := b.allow now
  (r.1, dInsert buckets name r.2)

/-- One "rl:<name>" hash in the shared key/value store (fields tokens,
last, capacity, refill). -/
structure RLHash where
  tokens : ℚ
  last : ℚ
  capacity : ℚ
  refill : ℚ
deriving Repr, DecidableEq

/-- rate_limit.allow_async with a configured, reachable store: read the
hash (defaults for an absent key), recompute tokens, decrement on allow,
write back (the TTL refresh has no observable effect in this model);
without a store, fall back to the in-memory bucket. -/
def allow_async (store : Option (List (String × RLHash)))
    (buckets : List (String × TokenBucket)) (name : String)
    (capacity : ℕ) (refill_per_sec now : ℚ) :
    Bool × Option (List (String × RLHash)) × List (String × TokenBucket) :=
  match store with
  | some db =>
      let key := "rl:" ++ name
      let h := (dLookup db key).getD ⟨capacity, now, capacity, refill_per_sec⟩
      let tokens := min (capacity : ℚ) (h.tokens + (now - h.last) * refill_per_sec)
      if tokens ≥ 1 then
        (true,
         some (dInsert db key ⟨tokens - 1, now, capacity, refill_per_sec⟩),
         buckets)
      else
        (false,
         some (dInsert db key ⟨tokens, now, capacity, refill_per_sec⟩),
         buckets)
  | none =>
      let r := rl_allow buckets name capacity refill_per_sec now
      (r.1, none, r.2)

/-! ### Cache (app/caching.py) -/

/-- One cache entry: (expires_at, content, headers, status).  The byte
encode/decode of header names and values round-trips, so headers are
kept as strings. -/
structure CacheEntry where
  expires : ℚ
  content : List ℕ
  headers : Headers
  status : ℕ
deriving Repr, DecidableEq

/-- caching.get with lazy expiry (pops the stale entry). -/
def cache_get (c : List (String × CacheEntry)) (key : String) (now : ℚ) :
    Option (List ℕ × Headers × ℕ) × List (String × CacheEntry) :=
  match dLookup c key with
  | none => (none, c)
  | some e =>
      if now > e.expires then (none, dPop c key)
      else (some (e.content, e.headers, e.status), c)

/-- caching.set. -/
def cache_set (c : List (String × CacheEntry)) (key : String)
    (content : List ℕ) (headers : Headers) (status : ℕ) (ttl : ℕ)
    (now : ℚ) : List (String × CacheEntry) :=
  dInsert c key ⟨now + ttl, content, headers, status⟩

/-! ### Budget ledger (src/app/budget.py) -/

/-- BudgetGuard state: the optional shared store and the module-level
in-memory fallback dict.  USD amounts are exact rationals. -/
structure BudgetStore where
  redis : Option (List (String × ℚ))
  mem : List (String × ℚ)
deriving Repr, DecidableEq

/-- BudgetGuard.add_cost: increment "budget:<key>:<month>" in the store
if configured, else in memory.  `month` is the strftime("%Y-%m") value
at call time. -/
def add_cost (b : BudgetStore) (key : String) (usd : ℚ) (month : String) :
    BudgetStore :=
  let full := "budget:" ++ key ++ ":" ++ month
  match b.redis with
  | some db => { b with redis := some (dInsert db full ((dLookup db full).getD 0 + usd)) }
  | none => { b with mem := dInsert b.mem full ((dLookup b.mem full).getD 0 + usd) }

/-- BudgetGuard.get_cost. -/
def get_cost (b : BudgetStore) (key : String) (month : String) : ℚ :=
  let full := "budget:" ++ key ++ ":" ++ month
  match b.redis with
  | some db => (dLookup db full).getD 0
  | none => (dLookup b.mem full).getD 0

/-! ### Connector policy and path admission (src/app/connectors.py) -/

def hexVal (c : Char) : Option ℕ :=
  if '0' ≤ c ∧ c ≤ '9' then some (c.toNat - 48)
  else if 'a' ≤ c ∧ c ≤ 'f' then some (c.toNat - 87)
  else if 'A' ≤ c ∧ c ≤ 'F' then some (c.toNat - 55)
  else none

/-- urllib.parse.unquote, done once: every valid %XX pair becomes the
character with that code; invalid sequences stay as-is.  (The real
unquote decodes at the byte level and re-decodes UTF-8; on ASCII
sequences — everything the admission logic compares against — the two
agree.) -/
def percentDecode : List Char → List Char
  | [] => []
  | '%' :: c1 :: c2 :: rest =>
      match hexVal c1, hexVal c2 with
      | some h1, some h2 => Char.ofNat (16 * h1 + h2) :: percentDecode rest
      | _, _ => '%' :: percentDecode (c1 :: c2 :: rest)
  | c :: rest => c :: percentDecode rest

/-- Python str.replace('//', '/'): one left-to-right pass over
non-overlapping occurrences. -/
def pyReplaceDouble : List Char → List Char
  | '/' :: '/' :: rest => '/' :: pyReplaceDouble rest
  | c :: rest => c :: pyReplaceDouble rest
  | [] => []

/-- Python str.rstrip('/'). -/
def rstripSlash (s : List Char) : List Char :=
  (s.reverse.dropWhile (fun c => c = '/')).reverse

/-- Python '..' in s. -/
def containsDotDot : List Char → Bool
  | '.' :: '.' :: _ => true
  | _ :: rest => containsDotDot rest
  | [] => false

/-- The "ensure starts with '/'" step. -/
def ensureLeading (s : List Char) : List Char :=
  if s.head? = some '/' then s else '/' :: s

/-- ConnectorPolicy.path_allowed.  Each allow_paths entry is an anchored
regex; re.fullmatch against a pattern is embedded as the pattern's
fullmatch predicate on the whole normalized string. -/
def path_allowed (allow_paths : List (List Char → Bool)) (path : List Char) :
    Bool :=
  let normalized := rstripSlash (pyReplaceDouble (percentDecode path))
  if containsDotDot normalized then false
  else
    let n := ensureLeading normalized
    allow_paths.any (fun m => m n)

/-- Modelled from the spec (§4.8), for comparison with the source's
path_allowed: the claimed normalize procedure — URL-decode once, collapse
every run of '/' to a single '/', strip trailing '/' preserving a lone
'/', ensure a leading '/'.  (Its reject-on-'..' step is the check
path_allowed itself performs on both sides of the claimed identity.) -/
def collapseSlash : List Char → List Char
  | '/' :: '/' :: rest => collapseSlash ('/' :: rest)
  | c :: rest => c :: collapseSlash rest
  | [] => []
termination_by s => s.length

/-- The spec's strip-trailing step: all trailing '/' removed, but a lone
'/' (a path that was nothing but slashes) is preserved. -/
def specStripTrailing (s : List Char) : List Char :=
  let t := rstripSlash s
  if t = [] ∧ ¬ s = [] then ['/'] else t

/-- Modelled from the spec: the §4.8 normalize as a total function. -/
def specNormalize (p : List Char) : List Char :=
  ensureLeading (specStripTrailing (collapseSlash (percentDecode p)))

/-! ### Transform engine (src/app/transforms.py) -/

/-- transforms.apply_transform_jmes: wrap the body with meta (a dict
literal, so a "meta" key of the body wins), search with the external
jmespath evaluator, fail open on its exceptions.  A missing or empty
expression (falsy) is `none`. -/
def apply_transform_jmes (search : String → Json → Except Unit Json)
    (data : Json) (expr : Option String) (meta : Json) : Json :=
  match expr with
  | none => data
  | some e =>
      let augmented :=
        match data with
        | .obj fields =>
            Json.obj (fields.foldl (fun acc kv => dInsert acc kv.1 kv.2)
              [(['m', 'e', 't', 'a'], meta)])
        | other => Json.obj [(['m', 'e', 't', 'a'], meta),
                             (['d', 'a', 't', 'a'], other)]
      match search e augmented with
      | .ok r => r
      | .error _ => data

/-! ### Gateway (src/app/gateway.py) -/

/-- The budget sub-config of a policy: cfg.get("budget") with its two
optional entries. -/
structure BudgetCfg where
  monthly_usd_max : Option ℚ
  on_exceed : Option String
deriving Repr, DecidableEq

/-- The pii_protection sub-config of a policy. -/
structure PiiCfg where
  enabled : Bool
  auto_scan : Bool
  action : PIIAction
  field_rules : List (List Char × PIIAction)

/-- A ConnectorPolicy after load, holding exactly the values the gateway
reads (defaults from connectors.py / gateway.py already applied to the
`.get` calls: rate capacity 10, refill 5, timeout_ms 15000, retries 0).
allow_paths entries are anchored-regex fullmatch predicates.  A falsy
auth ({}) or base_url ("") is `none`. -/
structure Policy where
  base_url : Option String
  providers : List Provider
  allow_paths : List (List Char → Bool)
  rate_capacity : ℕ
  rate_refill : ℚ
  cache_ttl : ℕ
  timeout_ms : ℕ
  retries : ℕ
  auth : Option AuthCfg
  static_headers : List (String × String)
  static_params : List (String × String)
  transform_jmes : Option String
  budget : Option BudgetCfg
  passthrough_headers : List String
  response_model_name : Option String
  cost_per_call_usd : ℚ
  pii : Option PiiCfg

/-- An upstream HTTP response as httpx delivers it: status, headers,
body bytes, the result of resp.json() (`none` models a parse failure),
and the measured latency in ms. -/
structure UpResp where
  status : ℕ
  headers : Headers
  content : List ℕ
  json : Option Json
  latency_ms : ℕ

/-- The outcome of one upstream attempt. -/
inductive UpOutcome where
  | ok (r : UpResp)
  | timeoutExc (msg : String)
  | otherExc (ename msg : String)

/-- One upstream call as the gateway issues it. -/
structure UpCall where
  provider_key : String
  attempt : ℕ
  method : String
  url : String
  headers : Headers
  params : Headers
  content : Option (List ℕ)
  timeout_ms : ℕ

/-- The external collaborators of the pipeline. -/
structure Env where
  upstream : UpCall → UpOutcome
  oauthToken : String → String
  jmesSearch : String → Json → Except Unit Json
  scan : List Char → PIIAction → List Char
  cipher : List Char → List Char
  registry : List String
  validateModel : String → Json → Option String
  dumps : Json → List ℕ
  fmt2 : ℚ → String

/-- The inbound request as the pipeline reads it (method already
uppercased by request.method.upper()). -/
structure Request where
  method : String
  headers : Headers
  query_params : Headers
  query_str : String
  body : List ℕ

/-- All process state the pipeline touches.  rlStore is the shared
key/value store of the distributed limiter; budget.redis is the budget
store. -/
structure GatewayState where
  buckets : List (String × TokenBucket)
  rlStore : Option (List (String × RLHash))
  cache : List (String × CacheEntry)
  health : HealthMap
  budget : BudgetStore

/-- What proxy produces: an HTTPException (status, detail) or a Response
(status, body bytes, headers). -/
inductive ProxyResult where
  | httpError (status : ℕ) (detail : String)
  | response (status : ℕ) (content : List ℕ) (headers : Headers)

/-- A proxy run: the result, the final state, and the log of upstream
calls (provider __key, attempt index) that were executed. -/
structure ProxyOut where
  result : ProxyResult
  state : GatewayState
  calls : List (String × ℕ)

/-- gateway.cache_key. -/
def gw_cache_key (connector url method query : String) : String :=
  connector ++ ":" ++ method ++ ":" ++ url ++ "?" ++ query

/-- Python str.rstrip("/") on a String. -/
def rstripS (s : String) : String := String.mk (rstripSlash s.data)

/-- gateway._build_headers_passthrough: keep response headers whose
lowercased name is in the policy's passthrough list. -/
def buildHeadersPassthrough (respHeaders : Headers) (allowed : List String) :
    Headers :=
  respHeaders.filter (fun kv => allowed.contains kv.1.toLower)

/-- httpx's case-insensitive resp.headers.get(name, ""). -/
def getHeaderCI (hs : Headers) (name : String) : String :=
  ((List.find? (fun kv => kv.1.toLower = name) hs).map (·.2)).getD ""

/-- gateway._apply_auth: inject the configured credentials into headers
or query params; the OAuth2 access token comes from the manager (the
`oauthToken` oracle here — the manager itself is modelled separately). -/
def applyAuth (oauthToken : String → String) (cfg : Option AuthCfg)
    (headers params : Headers) (provider_key : String) :
    Headers × Headers :=
  match cfg with
  | none => (headers, params)
  | some (.api_key_header n v) => (dInsert headers n v, params)
  | some (.api_key_query n v) => (headers, dInsert params n v)
  | some (.bearer t) =>
      (dInsert headers "Authorization" ("Bearer " ++ t), params)
  | some (.oauth2_client_credentials _ _ _) =>
      (dInsert headers "Authorization"
        ("Bearer " ++ oauthToken provider_key), params)

/-- Step 5 of proxy: the candidate list (pick_best over declared
providers, or the synthetic default provider from base_url), or none for
a misconfigured connector. -/
def selectProviders (policy : Policy) (connector : String) (health : HealthMap)
    (now : ℚ) : Option (List Provider × HealthMap) :=
  if ¬ policy.providers.isEmpty then some (pick_best policy.providers health now)
  else
    match policy.base_url with
    | some b => some ([⟨"default", b, 1, connector ++ ":default", none⟩], health)
    | none => none

/-- The canonical 402 body b'&#x7b;"error":"budget_exceeded"&#x7d;'. -/
def budgetExceededBody : List ℕ :=
  utf8Encode ("\x7b\"error\":\"budget_exceeded\"\x7d".data)

/-- The budget guard inside the success branch (gateway.py lines
198-213): only runs when cost_per_call_usd > 0; adds the per-call cost
for the connector, then — when monthly_usd_max is set and truthy
(non-zero) and the accumulated month cost strictly exceeds it — either
blocks (`none`, the 402 path) or flags the response headers.  Returns
the new budget store and the (possibly flagged) headers. -/
def budgetGate (policy : Policy) (connector : String) (bst : BudgetStore)
    (out_headers : Headers) (month : String) (fmt2 : ℚ → String) :
    BudgetStore × Option Headers :=
  if policy.cost_per_call_usd > 0 then
    let b2 := add_cost bst connector policy.cost_per_call_usd month
    match policy.budget with
    | some bc =>
        match bc.monthly_usd_max with
        | some maxv =>
            if maxv ≠ 0 then
              let spent := get_cost b2 connector month
              if spent > maxv then
                if bc.on_exceed.getD "block" = "block" then (b2, none)
                else
                  (b2, some (dInsert out_headers "x-apibridge-budget"
                    ("exceeded:" ++ fmt2 spent)))
              else (b2, some out_headers)
            else (b2, some out_headers)
        | none => (b2, some out_headers)
    | none => (b2, some out_headers)
  else (bst, some out_headers)

/-- The JSON processing of the success branch: transform, PII firewall
dispatch, drift check.  Returns the processed value and the drift
message, if any. -/
def processJson (policy : Policy) (env : Env) (prov : Provider)
    (r : UpResp) (data : Json) : Json × Option String :=
  let meta := Json.obj
    [(['p','r','o','v','i','d','e','r'], .str prov.name.data),
     (['s','t','a','t','u','s'], .num r.status),
     (['l','a','t','e','n','c','y','_','m','s'], .num r.latency_ms)]
  let d1 := apply_transform_jmes env.jmesSearch data policy.transform_jmes meta
  let d2 :=
    match policy.pii with
    | some cfg =>
        if cfg.enabled then
          if cfg.auto_scan then auto_scan env.scan d1 cfg.action
          else if ¬ cfg.field_rules.isEmpty then
            process_dict env.cipher d1 cfg.field_rules
          else d1
        else d1
    | none => d1
  let drift :=
    match policy.response_model_name with
    | some mn => if env.registry.contains mn then env.validateModel mn d2 else none
    | none => none
  (d2, drift)

/-- The success branch of the provider loop (2xx upstream response):
mark success, filter passthrough headers, JSON transform + PII + drift,
budget gate, cache write, observability headers. -/
def successBranch (policy : Policy) (connector full_path method : String)
    (prov : Provider) (r : UpResp) (ck : Option String) (st : GatewayState)
    (env : Env) (now : ℚ) (month : String) (calls : List (String × ℕ)) :
    ProxyOut :=
  let st1 := { st with health := mark_success st.health prov.key r.latency_ms now }
  let out0 := buildHeadersPassthrough r.headers policy.passthrough_headers
  let ctype := getHeaderCI r.headers "content-type"
  let processed :=
    if ctype.startsWith "application/json" then
      match r.json with
      | none => (r.content, out0)
      | some data =>
          let pd := processJson policy env prov r data
          let out1 :=
            match pd.2 with
            | some d =>
                dInsert (dInsert out0 "x-apibridge-drift" "1")
                  "x-apibridge-drift-msg" (String.mk (d.data.take 180))
            | none => out0
          (env.dumps pd.1, out1)
    else (r.content, out0)
  let content := processed.1
  let bg := budgetGate policy connector st1.budget processed.2 month env.fmt2
  let st2 := { st1 with budget := bg.1 }
  match bg.2 with
  | none =>
      ⟨.response 402 budgetExceededBody [("content-type", "application/json")],
       st2, calls⟩
  | some out2 =>
      let cache2 :=
        match ck with
        | some k =>
            if policy.cache_ttl > 0 ∧ method = "GET" then
              cache_set st2.cache k content out2 r.status policy.cache_ttl now
            else st2.cache
        | none => st2.cache
      let out3 :=
        dInsert (dInsert (dInsert out2 "X-ApiBridge-Provider" prov.name)
            "X-ApiBridge-Latency-Ms" (toString r.latency_ms))
          "X-ApiBridge-Cache" "miss"
      ⟨.response r.status content out3, { st2 with cache := cache2 }, calls⟩

/-- What one finished per-provider attempt loop yields: either the
pipeline's final output, or this provider failed (with the recorded
error string) and the loop moves on. -/
inductive AttemptRes where
  | finished (out : ProxyOut)
  | failedProvider (st : GatewayState) (errmsg : String)
      (calls : List (String × ℕ))

/-- The retry loop over one provider: `fuel` is the number of attempts
left including the current one (max_retries + 1 at entry, so retrying is
allowed exactly while attempt < max_retries). -/
def attemptLoop (policy : Policy) (connector full_path method : String)
    (headers qparams : Headers) (body : List ℕ) (prov : Provider)
    (ck : Option String) (env : Env) (now : ℚ) (month : String) :
    ℕ → ℕ → GatewayState → List (String × ℕ) → AttemptRes
  | 0, _, st, calls => .failedProvider st (prov.name ++ ": no attempt") calls
  | fuel + 1, attempt, st, calls =>
      let url := rstripS prov.base_url ++ "/" ++ full_path
      let calls2 := calls ++ [(prov.key, attempt)]
      match env.upstream ⟨prov.key, attempt, method, url, headers, qparams,
        (if body.isEmpty then none else some body), policy.timeout_ms⟩ with
      | .ok r =>
          if 200 ≤ r.status ∧ r.status < 300 then
            .finished (successBranch policy connector full_path method prov r
              ck st env now month calls2)
          else if r.status ≥ 500 ∧ fuel > 0 then
            attemptLoop policy connector full_path method headers qparams body
              prov ck env now month fuel (attempt + 1) st calls2
          else
            .failedProvider
              { st with health := mark_failure st.health prov.key now }
              (prov.name ++ ": " ++ toString r.status) calls2
      | .timeoutExc _ =>
          if fuel > 0 then
            attemptLoop policy connector full_path method headers qparams body
              prov ck env now month fuel (attempt + 1) st calls2
          else
            .failedProvider
              { st with health := mark_failure st.health prov.key now }
              (prov.name ++ ": timeout after " ++ toString policy.timeout_ms ++
               "ms") calls2
      | .otherExc ename msg =>
          if fuel > 0 then
            attemptLoop policy connector full_path method headers qparams body
              prov ck env now month fuel (attempt + 1) st calls2
          else
            .failedProvider
              { st with health := mark_failure st.health prov.key now }
              (prov.name ++ ": " ++ ename ++ ": " ++ msg) calls2

/-- Python ", ".join(errors). -/
def joinComma : List String → String
  | [] => ""
  | [e] => e
  | e :: rest => e ++ ", " ++ joinComma rest

/-- The provider failover loop (step 7): auth + static merges per
provider, then the retry loop; first success wins, otherwise 502 with
the aggregated diagnostics. -/
def providerLoop (policy : Policy) (connector full_path method : String)
    (incoming params : Headers) (body : List ℕ) (ck : Option String)
    (env : Env) (now : ℚ) (month : String) :
    List Provider → GatewayState → List String → List (String × ℕ) →
    ProxyOut
  | [], st, errors, calls =>
      ⟨.httpError 502 ("Upstream error(s): " ++ joinComma errors), st, calls⟩
  | prov :: rest, st, errors, calls =>
      let ap := applyAuth env.oauthToken
        (match policy.auth with | some a => some a | none => prov.auth)
        incoming params prov.key
      let headers := dUpdate ap.1 policy.static_headers
      let qparams := dUpdate ap.2 policy.static_params
      match attemptLoop policy connector full_path method headers qparams body
        prov ck env now month (policy.retries + 1) 0 st calls with
      | .finished out => out
      | .failedProvider st2 err calls2 =>
          providerLoop policy connector full_path method incoming params body
            ck env now month rest st2 (errors ++ [err]) calls2

/-- Gateway.proxy: the per-request pipeline (steps 1-9 of §4.12).
`now` models time.time() during the request and `month` the
strftime("%Y-%m") of the budget calls. -/
def proxy (policies : List (String × Policy)) (connector full_path : String)
    (req : Request) (st : GatewayState) (env : Env) (now : ℚ)
    (month : String) : ProxyOut :=
  match dLookup policies connector with
  | none => ⟨.httpError 404 ("Unknown connector '" ++ connector ++ "'"), st, []⟩
  | some policy =>
      if ¬ path_allowed policy.allow_paths ('/' :: full_path.data) then
        ⟨.httpError 403 "Path not allowed by connector policy", st, []⟩
      else
        let rl := rl_allow st.buckets ("rl:" ++ connector)
          policy.rate_capacity policy.rate_refill now
        let st1 := { st with buckets := rl.2 }
        if ¬ rl.1 then ⟨.httpError 429 "Rate limit exceeded", st1, []⟩
        else
          let incoming := dPop (dPop req.headers "host") "content-length"
          match selectProviders policy connector st1.health now with
          | none =>
              ⟨.httpError 500 "Connector misconfigured (no base_url/providers)",
               st1, []⟩
          | some (cands, health1) =>
              let st2 := { st1 with health := health1 }
              if policy.cache_ttl > 0 ∧ req.method = "GET" then
                let target := rstripS (cands.headD ⟨"", "", 1, "", none⟩).base_url
                  ++ "/" ++ full_path
                let ck := gw_cache_key connector target req.method req.query_str
                let cg := cache_get st2.cache ck now
                let st3 := { st2 with cache := cg.2 }
                match cg.1 with
                | some (content, hdrs, status) =>
                    ⟨.response status content hdrs, st3, []⟩
                | none =>
                    providerLoop policy connector full_path req.method incoming
                      req.query_params req.body (some ck) env now month cands
                      st3 [] []
              else
                providerLoop policy connector full_path req.method incoming
                  req.query_params req.body none env now month cands st2 [] []

/-! ### OAuth2 manager (src/app/oauth2_manager.py)

get_token for one provider key, under asyncio's cooperative scheduling:
code between awaits runs atomically, the only suspension points are the
lock acquisition and the awaited _fetch_token.  Each concurrent caller
is a task; a schedule is the order in which the event loop lets tasks
advance.  A task is `ready` until it acquires the per-key lock (the
lock-creation check has no await, so all tasks share one lock); on
acquiring it the synchronous cache check runs: a valid cached token is
returned immediately (releasing the lock), otherwise the task suspends
in `fetching` while holding the lock; when the fetch completes the token
is cached, returned, and the lock released.  Distinct fetches return
distinct tokens (tok<n>), so token equality across callers is
observable.  All steps happen at one instant `now`; a fetched token
expires at now + 3600 (the default expires_in), so the 60 s validity
buffer check now < expires_at - 60 is live. -/

/-- The per-task program counter of get_token. -/
inductive OTask where
  | ready
  | fetching
  | done (tok : String)
deriving Repr, DecidableEq

/-- The manager state for one provider key, plus the task pool. -/
structure OConfig where
  cache : Option (String × ℚ)
  lockHeld : Option ℕ
  fetchCount : ℕ
  tasks : List OTask
deriving Repr, DecidableEq

/-- The token the i-th token-endpoint call returns. -/
def newToken (i : ℕ) : String := "tok" ++ toString i

/-- One scheduler step: let task `i` advance as far as its next
suspension point. -/
def ostep (now : ℚ) (cfg : OConfig) (i : ℕ) : OConfig :=
  match cfg.tasks[i]? with
  | none => cfg
  | some .ready =>
      match cfg.lockHeld with
      | some _ => cfg
      | none =>
          match cfg.cache with
          | some (tok, exp) =>
              if now < exp - 60 then
                { cfg with tasks := cfg.tasks.set i (.done tok) }
              else
                { cfg with lockHeld := some i,
                           tasks := cfg.tasks.set i .fetching }
          | none =>
              { cfg with lockHeld := some i,
                         tasks := cfg.tasks.set i .fetching }
  | some .fetching =>
      let tok := newToken cfg.fetchCount
      { cache := some (tok, now + 3600), lockHeld := none,
        fetchCount := cfg.fetchCount + 1,
        tasks := cfg.tasks.set i (.done tok) }
  | some (.done _) => cfg

/-- N concurrent get_token callers for one key, no cached token. -/
def oinit (n : ℕ) : OConfig := ⟨none, none, 0, List.replicate n .ready⟩

/-- Run a schedule. -/
def orun (now : ℚ) (cfg : OConfig) (sched : List ℕ) : OConfig :=
  sched.foldl (ostep now) cfg

/-! ### Derived definitions used by the claim statements -/

/-- The status of a proxy outcome (HTTPException status or Response
status_code). -/
def resultStatus : ProxyResult → ℕ
  | .httpError s _ => s
  | .response s _ _ => s

/-- The response headers of a proxy outcome (an HTTPException carries
none). -/
def resultHeaders : ProxyResult → Headers
  | .httpError _ _ => []
  | .response _ _ h => h

/-- The response body of a proxy outcome. -/
def resultContent : ProxyResult → List ℕ
  | .httpError _ _ => []
  | .response _ c _ => c

/-- The source's EMA recurrence folded over a list of samples:
avg' = int(0.7*avg + 0.3*s) in IEEE binary64 arithmetic. -/
def emaFold (a : ℕ) (samples : List ℕ) : ℕ :=
  samples.foldl (fun acc s => fpEMA acc s) a

/-- mark_success applied over a list of latency samples. -/
def mark_success_run (m : HealthMap) (pkey : String) (samples : List ℕ)
    (now : ℚ) : HealthMap :=
  samples.foldl (fun acc s => mark_success acc pkey s now) m

/-- record_failure applied over a list of failure times. -/
def recordFailures (b : CircuitBreaker) (times : List ℚ) : CircuitBreaker :=
  times.foldl CircuitBreaker.record_failure b

/-- Whether pick_best's sort treats a provider as healthy (absent
entries count as healthy). -/
def healthyFor (m : HealthMap) (p : Provider) : Bool :=
  match hLookup m p.key with
  | none => true
  | some e => e.healthy

/-- Whether a string contains two consecutive slashes. -/
def containsDouble : List Char → Bool
  | '/' :: '/' :: _ => true
  | _ :: rest => containsDouble rest
  | [] => false

/-- Whether a string contains three consecutive slashes. -/
def containsTriple : List Char → Bool
  | '/' :: '/' :: '/' :: _ => true
  | _ :: rest => containsTriple rest
  | [] => false

/-- The inductive invariant of the OAuth2 single-flight system: the lock
is held exactly by the (unique) fetching task; before the first fetch
the cache is empty, nothing is done and no fetch has happened; after it
the cache holds the single fetched token (expiring at now + 3600),
exactly one fetch has happened, and every finished task returned the
cached token. -/
def OInv (n : ℕ) (now : ℚ) (cfg : OConfig) : Prop :=
  cfg.tasks.length = n ∧
  (∀ i : ℕ, cfg.tasks[i]? = some OTask.fetching → cfg.lockHeld = some i) ∧
  (∀ i : ℕ, cfg.lockHeld = some i → cfg.tasks[i]? = some OTask.fetching) ∧
  (cfg.cache = none → cfg.fetchCount = 0 ∧
    ∀ (i : ℕ) (t : String), cfg.tasks[i]? ≠ some (OTask.done t)) ∧
  (∀ tok exp, cfg.cache = some (tok, exp) →
    cfg.fetchCount = 1 ∧ exp = now + 3600 ∧
    (∀ i : ℕ, cfg.tasks[i]? ≠ some OTask.fetching) ∧
    (∀ (i : ℕ) (t : String), cfg.tasks[i]? = some (OTask.done t) → t = tok))

/-- Attach a given rl-store value to a proxy outcome (used to state that
proxy neither reads nor writes the shared limiter store). -/
def setRL (o : ProxyOut) (r2 : Option (List (String × RLHash))) : ProxyOut :=
  ⟨o.result, { o.state with rlStore := r2 }, o.calls⟩

/-- setRL lifted to the attempt-loop result. -/
def mapAttempt (a : AttemptRes) (r2 : Option (List (String × RLHash))) :
    AttemptRes :=
  match a with
  | .finished o => .finished (setRL o r2)
  | .failedProvider st e c => .failedProvider { st with rlStore := r2 } e c

/-- A minimal single-base-url connector policy for the concrete scenarios. -/
def basePolicy : Policy :=
  { base_url := some "http://u", providers := [], allow_paths := [fun _ => true],
    rate_capacity := 10, rate_refill := 5, cache_ttl := 0, timeout_ms := 15000,
    retries := 0, auth := none, static_headers := [], static_params := [],
    transform_jmes := none, budget := none,
    passthrough_headers := ["content-type"], response_model_name := none,
    cost_per_call_usd := 0, pii := none }

/-- An upstream world that always answers 200 text/plain "hello" in 7 ms. -/
def plainUpstream : UpCall → UpOutcome :=
  fun _ => .ok ⟨200, [("content-type", "text/plain")],
    utf8Encode "hello".data, none, 7⟩

/-- Concrete external collaborators for the scenarios. -/
def baseEnv : Env :=
  ⟨plainUpstream, fun _ => "", fun _ d => .ok d, fun s _ => s, id, [],
   fun _ _ => none, fun _ => [], fun _ => "9.99"⟩

/-- Fresh gateway state. -/
def emptyState : GatewayState := ⟨[], none, [], [], ⟨none, []⟩⟩

/-- Upstream that answers 200 with body "hello" and no headers. -/
def bareUpstream : UpCall → UpOutcome :=
  fun _ => .ok ⟨200, [], utf8Encode "hello".data, none, 7⟩

/-- Collaborators with the headerless upstream. -/
def bareEnv : Env :=
  ⟨bareUpstream, fun _ => "", fun _ d => .ok d, fun s _ => s, id, [],
   fun _ _ => none, fun _ => [], fun _ => "9.99"⟩

/-- A caching policy (TTL 60s) for the cache scenarios. -/
def c2pol : Policy := { basePolicy with cache_ttl := 60 }

/-- A cache entry for GET http://u/p that expires at t=60. -/
def c2entry : CacheEntry := ⟨60, utf8Encode "hi".data, [], 200⟩

/-- Gateway state whose cache already holds the entry for the request. -/
def c2state : GatewayState :=
  ⟨[], none, [("c:GET:http://u/p?", c2entry)], [], ⟨none, []⟩⟩

/-- A policy that charges 1 USD per call against a 0.50 USD monthly cap
with the blocking action. -/
def c8pol : Policy :=
  { basePolicy with cost_per_call_usd := 1, budget := some ⟨some (1/2), some "block"⟩ }

/-- The synthetic default provider for base_url http://u. -/
def c8prov : Provider := ⟨"default", "http://u", 1, "c:default", none⟩

/-- A bare 200 upstream response. -/
def c8resp : UpResp := ⟨200, [], utf8Encode "hello".data, none, 7⟩

/-- A policy that charges 1 USD per call against a monthly cap of 0 USD
with the blocking action. -/
def c8zpol : Policy :=
  { basePolicy with cost_per_call_usd := 1, budget := some ⟨some 0, some "block"⟩ }

/-- A parameterless GET request. -/
def getReq : Request := ⟨"GET", [], [], "", []⟩

/-! ## Shared lemmas -/

theorem hexdigest_length (value : List Char) : (hexdigest value).length = 64 := by
  simp [hexdigest, wordHex]

theorem hLookup_hInsert (m : HealthMap) (k : String) (v : HealthEntry) :
    hLookup (hInsert m k v) k = some v := by
  induction m with
  | nil => simp [hInsert, hLookup]
  | cons hd tl ih =>
      by_cases h : hd.1 = k
      · simp [hInsert, h, hLookup]
      · simpa [hInsert, h, hLookup, List.find?_cons] using ih

theorem mark_success_run_avg : ∀ (samples : List ℕ) (m : HealthMap) (k : String)
    (now : ℚ) (a : ℕ), (hLookup m k).map (·.avg) = some a → samples ≠ [] →
    (hLookup (mark_success_run m k samples now) k).map (fun e => (e.healthy, e.avg)) =
      some (true, emaFold a samples) := by
  intro samples
  induction samples with
  | nil => intro m k now a _ hne; exact absurd rfl hne
  | cons s rest ih =>
      intro m k now a ha _
      obtain ⟨e, he, hav⟩ := Option.map_eq_some'.mp ha
      have hm2 : hLookup (mark_success m k s now) k =
          some ⟨true, fpEMA e.avg s, now, e.breaker.record_success now⟩ := by
        simp [mark_success, he, hLookup_hInsert]
      rcases rest with _ | ⟨r, rs⟩
      · simp [mark_success_run, hm2, emaFold, hav]
      · have := ih (mark_success m k s now) k now (fpEMA a s)
          (by simp [hm2, hav]) (by simp)
        have h1 : mark_success_run m k (s :: r :: rs) now =
            mark_success_run (mark_success m k s now) k (r :: rs) now := by
          simp only [mark_success_run, List.foldl_cons]
        have h2 : emaFold a (s :: r :: rs) = emaFold (fpEMA a s) (r :: rs) := by
          simp only [emaFold, List.foldl_cons]
        rw [h1, h2]
        exact this

/-! ## Claim C3 -/

/-- Claim C3, as stated, is false: the hash output is "HASH_" (5 chars)
plus 16 hex chars, so its length is 21, not 20 (and the empty string maps
to itself, length 0). -/
theorem C3_counterexample :
    (hash_value ['a']).length = 21 ∧ ¬ (hash_value ['a']).length = 20 ∧
    tokenize [] = [] := by
  have h : (hash_value ['a']).length = 21 := by
    simp [hash_value, List.length_append, List.length_take, hexdigest_length]
  exact ⟨h, by omega, rfl⟩

/-- Claim C3 (amended): tokenize and hash_value are deterministic
functions; on every non-empty value, tokenize is "TOK_" plus the first
16 hex characters of sha256 of the value (length 20) and hash_value is
"HASH_" plus the same 16 hex characters (length 21); empty values are
returned unchanged. -/
theorem C3_tokenize_hash (v : List Char) (h : v ≠ []) :
    tokenize v = ['T', 'O', 'K', '_'] ++ (hexdigest v).take 16 ∧
    (tokenize v).length = 20 ∧
    hash_value v = ['H', 'A', 'S', 'H', '_'] ++ (hexdigest v).take 16 ∧
    (hash_value v).length = 21 := by
  simp [tokenize, hash_value, h, hexdigest_length]

/-- Witness for C3_tokenize_hash at the one-character value "a". -/
theorem C3_tokenize_hash_witness :
    (['a'] : List Char) ≠ [] ∧
    (tokenize ['a'] = ['T', 'O', 'K', '_'] ++ (hexdigest ['a']).take 16 ∧
     (tokenize ['a']).length = 20 ∧
     hash_value ['a'] = ['H', 'A', 'S', 'H', '_'] ++ (hexdigest ['a']).take 16 ∧
     (hash_value ['a']).length = 21) :=
  ⟨by decide, C3_tokenize_hash ['a'] (by decide)⟩

/-! ## Claim C4 -/

/-- Claim C4, as stated, is false: mark_success truncates the EMA with
int() rather than rounding.  After samples 1 then 3 the stored average
is int(0.7*1 + 0.3*3) = int(1.5999999999999999) = 1, while
round(0.7·1 + 0.3·3) = round(1.6) = 2; and a first sample of 3 stores
int(0.7*3 + 0.3*3) = int(2.9999999999999996) = 2, so the first success
does not seed the average equal to the sample either. -/
theorem C4_counterexample :
    (hLookup (mark_success (mark_success [] "p" 1 0) "p" 3 0) "p").map
      (fun e => e.avg) = some 1 ∧
    round ((7 : ℚ) / 10 * 1 + (3 : ℚ) / 10 * 3) = 2 ∧
    (hLookup (mark_success [] "p" 3 0) "p").map (fun e => e.avg) = some 2 :=
  ⟨by decide, by norm_num [round_eq], by decide⟩

/-- Claim C4 (amended): after any mark_success the entry is healthy, and
the average follows avgᵢ = int(0.7·avgᵢ₋₁ + 0.3·sᵢ) evaluated in IEEE
binary64 arithmetic with int() truncating toward zero (not round); a
fresh entry is seeded with the sample and immediately updated, so the
first stored average is int(0.7·s₁ + 0.3·s₁), which is s₁ for most but
not all samples; after samples s₁..sₙ the stored average is the fold of
this update from that seed. -/
theorem C4_ema (m : HealthMap) (k : String) (s : ℕ) (samples : List ℕ)
    (now : ℚ) (h : hLookup m k = none) :
    (hLookup (mark_success_run m k (s :: samples) now) k).map
      (fun e => (e.healthy, e.avg)) =
      some (true, emaFold (fpEMA s s) samples) := by
  have hm2 : hLookup (mark_success m k s now) k =
      some ⟨true, fpEMA s s, now,
        (CircuitBreaker.init 5 60 now).record_success now⟩ := by
    simp [mark_success, h, hLookup_hInsert]
  rcases samples with _ | ⟨r, rs⟩
  · simp [mark_success_run, hm2, emaFold]
  · have := mark_success_run_avg (r :: rs) (mark_success m k s now) k now
      (fpEMA s s) (by simp [hm2]) (by simp)
    have h1 : mark_success_run m k (s :: r :: rs) now =
        mark_success_run (mark_success m k s now) k (r :: rs) now := by
      simp only [mark_success_run, List.foldl_cons]
    rw [h1]
    exact this

/-- Witness for C4_ema: samples 10 then 20 from an empty registry; the
seed int(0.7*10 + 0.3*10) evaluates to 10 and the next update
int(0.7*10 + 0.3*20) to 13. -/
theorem C4_ema_witness :
    hLookup ([] : HealthMap) "p" = none ∧
    (hLookup (mark_success_run [] "p" [10, 20] 0) "p").map
      (fun e => (e.healthy, e.avg)) =
      some (true, emaFold (fpEMA 10 10) [20]) ∧
    emaFold (fpEMA 10 10) [20] = 13 :=
  ⟨rfl, C4_ema [] "p" 10 [20] 0 rfl, by decide⟩

/-! ## Claim C6 -/

/-- Claim C6: from a fresh breaker (threshold 5, recovery 60 s), four
failures leave it CLOSED and the fifth opens it; once strictly more than
60 s have passed since the fifth failure, should_attempt returns true
and leaves the breaker HALF_OPEN; record_success from any state returns
to CLOSED with the counter reset; record_failure from that HALF_OPEN
breaker reopens it. -/
theorem C6_breaker (t0 t1 t2 t3 t4 t5 tq ts tf : ℚ) (h : tq - t5 > 60) :
    (recordFailures (CircuitBreaker.init 5 60 t0) [t1]).state = .CLOSED ∧
    (recordFailures (CircuitBreaker.init 5 60 t0) [t1, t2]).state = .CLOSED ∧
    (recordFailures (CircuitBreaker.init 5 60 t0) [t1, t2, t3]).state = .CLOSED ∧
    (recordFailures (CircuitBreaker.init 5 60 t0) [t1, t2, t3, t4]).state = .CLOSED ∧
    (recordFailures (CircuitBreaker.init 5 60 t0) [t1, t2, t3, t4, t5]).state = .OPEN ∧
    ((recordFailures (CircuitBreaker.init 5 60 t0) [t1, t2, t3, t4, t5]).should_attempt tq).1 = true ∧
    ((recordFailures (CircuitBreaker.init 5 60 t0) [t1, t2, t3, t4, t5]).should_attempt tq).2.state = .HALF_OPEN ∧
    (∀ b : CircuitBreaker, (b.record_success ts).state = .CLOSED ∧
      (b.record_success ts).failure_count = 0) ∧
    ((((recordFailures (CircuitBreaker.init 5 60 t0) [t1, t2, t3, t4, t5]).should_attempt tq).2).record_failure tf).state = .OPEN := by
  refine ⟨?_, ?_, ?_, ?_, ?_, ?_, ?_, ?_, ?_⟩ <;>
    simp [recordFailures, CircuitBreaker.init, CircuitBreaker.record_failure,
      CircuitBreaker.should_attempt, CircuitBreaker.record_success, h]

/-- Witness for C6_breaker: failures at times 1..5, probe at time 70. -/
theorem C6_breaker_witness :
    ((70 : ℚ) - 5 > 60) ∧
    ((recordFailures (CircuitBreaker.init 5 60 0) [1]).state = .CLOSED ∧
     (recordFailures (CircuitBreaker.init 5 60 0) [1, 2]).state = .CLOSED ∧
     (recordFailures (CircuitBreaker.init 5 60 0) [1, 2, 3]).state = .CLOSED ∧
     (recordFailures (CircuitBreaker.init 5 60 0) [1, 2, 3, 4]).state = .CLOSED ∧
     (recordFailures (CircuitBreaker.init 5 60 0) [1, 2, 3, 4, 5]).state = .OPEN ∧
     ((recordFailures (CircuitBreaker.init 5 60 0) [1, 2, 3, 4, 5]).should_attempt 70).1 = true ∧
     ((recordFailures (CircuitBreaker.init 5 60 0) [1, 2, 3, 4, 5]).should_attempt 70).2.state = .HALF_OPEN ∧
     (∀ b : CircuitBreaker, (b.record_success 71).state = .CLOSED ∧
       (b.record_success 71).failure_count = 0) ∧
     ((((recordFailures (CircuitBreaker.init 5 60 0) [1, 2, 3, 4, 5]).should_attempt 70).2).record_failure 72).state = .OPEN) :=
  ⟨by norm_num, C6_breaker 0 1 2 3 4 5 70 71 72 (by norm_num)⟩

/-! ## Claim C1 -/

theorem successBranch_rl (policy : Policy) (connector full_path method : String)
    (prov : Provider) (r : UpResp) (ck : Option String) (st : GatewayState)
    (env : Env) (now : ℚ) (month : String) (calls : List (String × ℕ))
    (r2 : Option (List (String × RLHash))) :
    successBranch policy connector full_path method prov r ck
      { st with rlStore := r2 } env now month calls =
    setRL (successBranch policy connector full_path method prov r ck st env
      now month calls) r2 := by
  simp only [successBranch, setRL]
  cases hbg : (budgetGate policy connector
      { st with health := mark_success st.health prov.key r.latency_ms now }.budget
      (if (getHeaderCI r.headers "content-type").startsWith "application/json" then
        match r.json with
        | none => (r.content, buildHeadersPassthrough r.headers policy.passthrough_headers)
        | some data =>
            ((fun pd => (env.dumps pd.1,
              match pd.2 with
              | some d => dInsert (dInsert (buildHeadersPassthrough r.headers policy.passthrough_headers) "x-apibridge-drift" "1") "x-apibridge-drift-msg" (String.mk (d.data.take 180))
              | none => buildHeadersPassthrough r.headers policy.passthrough_headers))
              (processJson policy env prov r data))
      else (r.content, buildHeadersPassthrough r.headers policy.passthrough_headers)).2
      month env.fmt2).2 with
  | none => simp [hbg]
  | some out2 => simp [hbg]

theorem attemptLoop_rl (policy : Policy) (connector full_path method : String)
    (headers qparams : Headers) (body : List ℕ) (prov : Provider)
    (ck : Option String) (env : Env) (now : ℚ) (month : String)
    (fuel attempt : ℕ) (st : GatewayState) (calls : List (String × ℕ))
    (r2 : Option (List (String × RLHash))) :
    attemptLoop policy connector full_path method headers qparams body prov ck
      env now month fuel attempt { st with rlStore := r2 } calls =
    mapAttempt (attemptLoop policy connector full_path method headers qparams
      body prov ck env now month fuel attempt st calls) r2 := by
  induction fuel generalizing attempt st calls with
  | zero => rfl
  | succ fuel ih =>
      simp only [attemptLoop]
      split
      · rename_i r heq
        by_cases h2 : 200 ≤ r.status ∧ r.status < 300
        · simp only [if_pos h2]
          rw [successBranch_rl]
          rfl
        · simp only [if_neg h2]
          by_cases h5 : r.status ≥ 500 ∧ fuel > 0
          · simp only [if_pos h5]
            exact ih (attempt + 1) st (calls ++ [(prov.key, attempt)])
          · simp only [if_neg h5]
            rfl
      · rename_i msg heq
        by_cases hf : fuel > 0
        · simp only [if_pos hf]
          exact ih (attempt + 1) st (calls ++ [(prov.key, attempt)])
        · simp only [if_neg hf]
          rfl
      · rename_i ename msg heq
        by_cases hf : fuel > 0
        · simp only [if_pos hf]
          exact ih (attempt + 1) st (calls ++ [(prov.key, attempt)])
        · simp only [if_neg hf]
          rfl

theorem providerLoop_rl (policy : Policy) (connector full_path method : String)
    (incoming params : Headers) (body : List ℕ) (ck : Option String)
    (env : Env) (now : ℚ) (month : String) (cands : List Provider)
    (st : GatewayState) (errors : List String) (calls : List (String × ℕ))
    (r2 : Option (List (String × RLHash))) :
    providerLoop policy connector full_path method incoming params body ck env
      now month cands { st with rlStore := r2 } errors calls =
    setRL (providerLoop policy connector full_path method incoming params body
      ck env now month cands st errors calls) r2 := by
  induction cands generalizing st errors calls with
  | nil => rfl
  | cons prov rest ih =>
      simp only [providerLoop]
      rw [attemptLoop_rl]
      cases attemptLoop policy connector full_path method
        (dUpdate (applyAuth env.oauthToken
          (match policy.auth with | some a => some a | none => prov.auth)
          incoming params prov.key).1 policy.static_headers)
        (dUpdate (applyAuth env.oauthToken
          (match policy.auth with | some a => some a | none => prov.auth)
          incoming params prov.key).2 policy.static_params)
        body prov ck env now month (policy.retries + 1) 0 st calls with
      | finished out => rfl
      | failedProvider st2 err calls2 => exact ih st2 (errors ++ [err]) calls2

theorem proxy_rl (policies : List (String × Policy)) (connector full_path : String)
    (req : Request) (st : GatewayState) (env : Env) (now : ℚ) (month : String)
    (r2 : Option (List (String × RLHash))) :
    proxy policies connector full_path req { st with rlStore := r2 } env now
      month =
    setRL (proxy policies connector full_path req st env now month) r2 := by
  simp only [proxy]
  split
  · rfl
  · rename_i policy hpol
    cases hpath : path_allowed policy.allow_paths ('/' :: full_path.data) with
    | false => simp [hpath, setRL]
    | true =>
      simp only [hpath, not_true, Bool.not_true, if_false, ite_false]
      try dsimp only
      cases hrl : (rl_allow st.buckets ("rl:" ++ connector)
          policy.rate_capacity policy.rate_refill now).1 with
      | false => simp [hrl, setRL]
      | true =>
        simp only [hrl, not_true, Bool.not_true, ite_false]
        try dsimp only
        split
        · rfl
        · rename_i cands health1 hsel
          try dsimp only
          by_cases hcm : policy.cache_ttl > 0 ∧ req.method = "GET"
          · simp only [if_pos hcm]
            try dsimp only
            split
            · rename_i content hdrs status hcg
              rfl
            · rename_i hcg
              exact providerLoop_rl _ _ _ _ _ _ _ _ _ _ _ _
                ⟨_, st.rlStore, _, _, _⟩ _ _ _
          · simp only [if_neg hcm]
            exact providerLoop_rl _ _ _ _ _ _ _ _ _ _ _ _
              ⟨_, st.rlStore, _, _, _⟩ _ _ _

/-- Claim C1, as stated, is false: with the shared store configured and
reachable (and the hash rl:c holding zero tokens and zero refill, on
which the distributed algorithm denies), proxy still allows the request
via a fresh in-memory bucket and leaves the shared store untouched. -/
theorem C1_counterexample :
    resultStatus (proxy [("c", basePolicy)] "c" "x" getReq
      { emptyState with rlStore := some [("rl:c", ⟨0, 0, 10, 0⟩)] }
      baseEnv 0 "m").result = 200 ∧
    (proxy [("c", basePolicy)] "c" "x" getReq
      { emptyState with rlStore := some [("rl:c", ⟨0, 0, 10, 0⟩)] }
      baseEnv 0 "m").state.rlStore = some [("rl:c", ⟨0, 0, 10, 0⟩)] ∧
    (allow_async (some [("rl:c", ⟨0, 0, 10, 0⟩)]) [] "c" 10 0 0).1 = false := by
  refine ⟨?_, ?_, ?_⟩
  · norm_num [proxy, basePolicy, baseEnv, emptyState, getReq, path_allowed,
      percentDecode, pyReplaceDouble, rstripSlash, containsDotDot,
      ensureLeading, rl_allow, dLookup, dInsert, TokenBucket.allow,
      TokenBucket.init, selectProviders, providerLoop, attemptLoop,
      successBranch, budgetGate, mark_success, hInsert, hLookup,
      buildHeadersPassthrough, getHeaderCI, plainUpstream, resultStatus,
      rstripS, dPop, dUpdate, applyAuth, gw_cache_key, cache_get, cache_set]
  · norm_num [proxy, basePolicy, baseEnv, emptyState, getReq, path_allowed,
      percentDecode, pyReplaceDouble, rstripSlash, containsDotDot,
      ensureLeading, rl_allow, dLookup, dInsert, TokenBucket.allow,
      TokenBucket.init, selectProviders, providerLoop, attemptLoop,
      successBranch, budgetGate, mark_success, hInsert, hLookup,
      buildHeadersPassthrough, getHeaderCI, plainUpstream, resultStatus,
      rstripS, dPop, dUpdate, applyAuth, gw_cache_key, cache_get, cache_set]
  · have hs : ("rl:" ++ "c" : String) = "rl:c" := rfl
    norm_num [allow_async, dLookup, dInsert, rl_allow, hs]

/-- Claim C1 (amended): the pipeline rate-limit decision in step 3 is
always the in-memory rate_limit.allow — proxy never reads or updates the
shared rl:<connector> hash: its outcome is invariant under any value of
the shared store, and the store is returned unchanged. -/
theorem C1_rl_in_memory (policies : List (String × Policy)) (connector full_path : String)
    (req : Request) (st : GatewayState) (env : Env) (now : ℚ) (month : String) :
    (proxy policies connector full_path req st env now month).state.rlStore =
      st.rlStore ∧
    (∀ r2, proxy policies connector full_path req { st with rlStore := r2 }
      env now month =
      setRL (proxy policies connector full_path req st env now month) r2) := by
  constructor
  · have h := proxy_rl policies connector full_path req st env now month
      st.rlStore
    have heta : ({ st with rlStore := st.rlStore } : GatewayState) = st := rfl
    rw [heta] at h
    rw [h]
    rfl
  · exact fun r2 => proxy_rl policies connector full_path req st env now month r2

/-! ## Claim C5 -/

theorem collapse_cons : ∀ (p : List Char) (r : Char) (rs : List Char),
    p = r :: rs → ∃ tail, collapseSlash p = r :: tail := by
  intro p
  induction p using collapseSlash.induct with
  | case1 rest ih =>
      intro r rs hp
      have hr : r = '/' := by
        have := hp
        injection this with h1 h2
        exact h1.symm
      subst hr
      rw [collapseSlash]
      exact ih '/' rest rfl
  | case2 c rest hne ih =>
      intro r rs hp
      have hr : r = c := by injection hp with h1 h2; exact h1.symm
      subst hr
      rw [collapseSlash]
      · exact ⟨collapseSlash rest, rfl⟩
      · exact hne
  | case3 => intro r rs hp; cases hp


theorem containsDouble_cons_false (c : Char) (l : List Char)
    (h1 : containsDouble l = false)
    (h2 : ¬ (c = '/' ∧ l.head? = some '/')) :
    containsDouble (c :: l) = false := by
  rcases l with _ | ⟨d, ds⟩
  · by_cases hc : c = '/' <;> simp [containsDouble, hc]
  · by_cases hc : c = '/'
    · by_cases hd : d = '/'
      · exact absurd ⟨hc, by simp [hd]⟩ h2
      · subst hc
        simpa [containsDouble, hd] using h1
    · simpa [containsDouble, hc] using h1

theorem collapse_noDouble (p : List Char) :
    containsDouble (collapseSlash p) = false := by
  induction p using collapseSlash.induct with
  | case1 rest ih => rw [collapseSlash]; exact ih
  | case2 c rest hne ih =>
      rw [collapseSlash]
      · refine containsDouble_cons_false _ _ ih ?_
        rintro ⟨hc, hh⟩
        rcases hr : rest with _ | ⟨d, ds⟩
        · rw [hr] at hh
          simp [collapseSlash] at hh
        · obtain ⟨tail, htail⟩ := collapse_cons (d :: ds) d ds rfl
          rw [hr, htail] at hh
          simp only [List.head?_cons, Option.some.injEq] at hh
          exact hne ds hc (by rw [hr, hh])
      · exact hne
  | case3 => rw [collapseSlash]; rfl


theorem containsTriple_cons_true (c : Char) (l : List Char)
    (h : containsTriple l = true) : containsTriple (c :: l) = true := by
  by_cases hc : c = '/'
  · rcases l with _ | ⟨d, ds⟩
    · simp [containsTriple] at h
    · by_cases hd : d = '/'
      · rcases ds with _ | ⟨e, es⟩
        · simp [containsTriple, hd] at h
        · by_cases he : e = '/'
          · subst hc; subst hd; subst he; simp [containsTriple]
          · subst hc; subst hd
            simpa [containsTriple, he] using h
      · subst hc
        simpa [containsTriple, hd] using h
  · simpa [containsTriple, hc] using h

theorem containsTriple_tail (c : Char) (l : List Char)
    (h : containsTriple (c :: l) = false) : containsTriple l = false := by
  by_contra hne
  rw [containsTriple_cons_true c l (by simpa using hne)] at h
  cases h

theorem containsDouble_cons_true (c : Char) (l : List Char)
    (h : containsDouble l = true) : containsDouble (c :: l) = true := by
  by_cases hc : c = '/'
  · rcases l with _ | ⟨d, ds⟩
    · simp [containsDouble] at h
    · by_cases hd : d = '/'
      · subst hc; subst hd; simp [containsDouble]
      · subst hc
        simpa [containsDouble, hd] using h
  · simpa [containsDouble, hc] using h

theorem containsDouble_tail (c : Char) (l : List Char)
    (h : containsDouble (c :: l) = false) : containsDouble l = false := by
  by_contra hne
  rw [containsDouble_cons_true c l (by simpa using hne)] at h
  cases h

theorem prd_eq_collapse (p : List Char) (h : containsTriple p = false) :
    pyReplaceDouble p = collapseSlash p := by
  induction p using pyReplaceDouble.induct with
  | case1 rest ih =>
      rcases rest with _ | ⟨d, ds⟩
      · simp [pyReplaceDouble, collapseSlash]
      · have hd : d ≠ '/' := by
          intro hd
          subst hd
          simp [containsTriple] at h
        have hrest : containsTriple (d :: ds) = false :=
          containsTriple_tail _ _ (containsTriple_tail _ _ h)
        simp [pyReplaceDouble, collapseSlash, hd, ih hrest]
  | case2 c rest hne ih =>
      have hside : ∀ rest1 : List Char, ¬ (c = '/' ∧ rest = '/' :: rest1) :=
        fun rest1 hcr => hne rest1 hcr.1 hcr.2
      rcases hcr : rest with _ | ⟨d, ds⟩
      · subst hcr
        simp [pyReplaceDouble, collapseSlash]
      · subst hcr
        have hcd : ¬ (c = '/' ∧ d = '/') := by
          rintro ⟨h1, h2⟩
          exact hne ds h1 (by rw [h2])
        simp only [pyReplaceDouble, collapseSlash, hcd,
          ih (containsTriple_tail _ _ h)]
  | case3 => simp [pyReplaceDouble, collapseSlash]

theorem prd_self (p : List Char) (h : containsDouble p = false) :
    pyReplaceDouble p = p := by
  induction p using pyReplaceDouble.induct with
  | case1 rest ih => simp [containsDouble] at h
  | case2 c rest hne ih =>
      rw [pyReplaceDouble]
      · rw [ih (containsDouble_tail _ _ h)]
      · exact hne
  | case3 => rfl


theorem cd_append (xs ys : List Char) (h : containsDouble (xs ++ ys) = false) :
    containsDouble xs = false := by
  induction xs with
  | nil => rfl
  | cons c rest ih =>
      have htail := containsDouble_tail c _ h
      refine containsDouble_cons_false c rest (ih htail) ?_
      rintro ⟨hc, hh⟩
      rcases rest with _ | ⟨d, ds⟩
      · simp at hh
      · simp only [List.head?_cons, Option.some.injEq] at hh
        subst hc; subst hh
        simp [containsDouble] at h

theorem rstrip_suffix (s : List Char) :
    s = rstripSlash s ++ (s.reverse.takeWhile (fun c => c = '/')).reverse := by
  conv_lhs => rw [← s.reverse_reverse,
    ← List.takeWhile_append_dropWhile (fun c => c = '/') s.reverse]
  rw [List.reverse_append]
  rfl

theorem rstrip_noDouble (s : List Char) (h : containsDouble s = false) :
    containsDouble (rstripSlash s) = false := by
  refine cd_append (rstripSlash s)
    ((s.reverse.takeWhile (fun c => c = '/')).reverse) ?_
  rw [← rstrip_suffix s]
  exact h

theorem mem_rstrip (s : List Char) (x : Char) (h : x ∈ rstripSlash s) :
    x ∈ s := by
  rw [rstrip_suffix s]
  exact List.mem_append_left _ h

theorem rstrip_idem (s : List Char) :
    rstripSlash (rstripSlash s) = rstripSlash s := by
  unfold rstripSlash
  rw [List.reverse_reverse]
  congr 1
  generalize s.reverse = l
  induction l with
  | nil => simp
  | cons a l ih =>
      by_cases ha : a = '/'
      · simpa [List.dropWhile_cons, ha] using ih
      · simp [List.dropWhile_cons, ha]

theorem rstrip_cons (c : Char) (t : List Char) (h1 : t ≠ [])
    (h2 : rstripSlash t = t) : rstripSlash (c :: t) = c :: t := by
  have hrev : t.reverse.dropWhile (fun x => x = '/') = t.reverse := by
    have := congrArg List.reverse h2
    simpa [rstripSlash] using this
  unfold rstripSlash
  rw [List.reverse_cons]
  rcases hr : t.reverse with _ | ⟨a, as⟩
  · exact absurd (by simpa using congrArg List.reverse hr) h1
  · have ha : ¬ (a = '/') := by
      have h0 := (List.dropWhile_eq_self_iff.mp (hr ▸ hrev)) (by simp)
      simpa using h0
    have ht : t = as.reverse ++ [a] := by
      have := congrArg List.reverse hr
      simpa using this
    rw [List.cons_append, List.dropWhile_cons]
    simp [ha, ht]

theorem ddd_slash (t : List Char) :
    containsDotDot ('/' :: t) = containsDotDot t := by
  rcases t with _ | ⟨d, ds⟩
  · simp [containsDotDot]
  · simp [containsDotDot]


theorem pd_self (p : List Char) (h : '%' ∉ p) : percentDecode p = p := by
  induction p using percentDecode.induct with
  | case1 => rfl
  | case2 c1 c2 rest h1 h2 => simp at h
  | case3 c1 c2 rest hmatch ih => simp at h
  | case4 c rest hne ih =>
      simp only [List.mem_cons, not_or] at h
      simp [percentDecode]
      exact ih h.2

theorem mem_collapseSlash (p : List Char) (x : Char)
    (h : x ∈ collapseSlash p) : x ∈ p := by
  induction p using collapseSlash.induct with
  | case1 rest ih =>
      rw [collapseSlash] at h
      have hx := ih h
      simp only [List.mem_cons] at hx ⊢
      tauto
  | case2 c rest hne ih =>
      rw [collapseSlash] at h
      · simp only [List.mem_cons] at h ⊢
        rcases h with h | h
        · exact Or.inl h
        · exact Or.inr (ih h)
      · exact hne
  | case3 => rw [collapseSlash] at h; cases h



/-- Claim C5 (amended): for paths with no percent escape (unquote is
applied once on each side of the identity, so a second decode can change
the string) and no run of three or more slashes (the single replace pass
collapses only doubled slashes), path_allowed(p) =
path_allowed(normalize(p)) for the spec's normalize. -/
theorem C5_normalize_invariance (L : List (List Char → Bool)) (p : List Char)
    (h1 : '%' ∉ p) (h3 : containsTriple p = false) :
    path_allowed L p = path_allowed L (specNormalize p) := by
  have hpd := pd_self p h1
  have hpr := prd_eq_collapse p h3
  set c := collapseSlash p with hc
  set t := rstripSlash c with ht
  have noD_c : containsDouble c = false := collapse_noDouble p
  have noD_t : containsDouble t = false := rstrip_noDouble c noD_c
  have t_idem : rstripSlash t = t := by rw [ht]; exact rstrip_idem c
  have hmem : ∀ x, x ∈ t → x ∈ p := fun x hx =>
    mem_collapseSlash p x (mem_rstrip c x hx)
  have hLHS : path_allowed L p =
      (if containsDotDot t then false
       else L.any (fun m => m (ensureLeading t))) := by
    simp only [path_allowed, hpd, hpr, ← ht]
  by_cases htnil : t = []
  · have hspec : specNormalize p = ['/'] := by
      simp only [specNormalize, hpd, hpr, specStripTrailing, ← ht, htnil]
      by_cases hcnil : c = [] <;> simp [← hc, hcnil, ensureLeading]
    rw [hLHS, htnil, hspec]
    simp [path_allowed, containsDotDot, ensureLeading, percentDecode,
      pyReplaceDouble, rstripSlash, List.dropWhile]
  · have hspec : specNormalize p = ensureLeading t := by
      simp only [specNormalize, hpd, hpr, specStripTrailing, ← ht]
      simp [htnil]
    rw [hLHS, hspec]
    by_cases hhead : t.head? = some '/'
    · have hel : ensureLeading t = t := by simp [ensureLeading, hhead]
      rw [hel]
      have hpd_t : percentDecode t = t := pd_self t (fun hx => h1 (hmem '%' hx))
      have hprd_t : pyReplaceDouble t = t := prd_self t noD_t
      simp only [path_allowed, hpd_t, hprd_t, t_idem, hel]
    · have hel : ensureLeading t = '/' :: t := by simp [ensureLeading, hhead]
      rw [hel]
      have hpd_t : percentDecode ('/' :: t) = '/' :: t := by
        refine pd_self _ ?_
        simp only [List.mem_cons, not_or]
        exact ⟨by decide, fun hx => h1 (hmem '%' hx)⟩
      have noD_st : containsDouble ('/' :: t) = false := by
        refine containsDouble_cons_false _ _ noD_t ?_
        rintro ⟨_, hh⟩
        exact hhead hh
      have hprd_st : pyReplaceDouble ('/' :: t) = '/' :: t := prd_self _ noD_st
      have hrs : rstripSlash ('/' :: t) = '/' :: t := rstrip_cons '/' t htnil t_idem
      have hel2 : ensureLeading ('/' :: t) = '/' :: t := by simp [ensureLeading]
      simp only [path_allowed, hpd_t, hprd_st, hrs, ddd_slash, hel2]


/-- Claim C5, as stated, is false: the source collapses slashes with a
single non-overlapping replace('//','/') pass, so a run of three slashes
leaves a double slash behind, while the spec's normalize collapses every
run to one; with allow_paths ["^/a/b$"], "/a///b" is rejected but its
normalization "/a/b" is accepted. -/
theorem C5_counterexample :
    path_allowed [fun s => s == ['/', 'a', '/', 'b']]
      ['/', 'a', '/', '/', '/', 'b'] = false ∧
    specNormalize ['/', 'a', '/', '/', '/', 'b'] = ['/', 'a', '/', 'b'] ∧
    path_allowed [fun s => s == ['/', 'a', '/', 'b']]
      (specNormalize ['/', 'a', '/', '/', '/', 'b']) = true := by
  have hspec : specNormalize ['/', 'a', '/', '/', '/', 'b'] =
      ['/', 'a', '/', 'b'] := by
    simp [specNormalize, specStripTrailing, percentDecode, ensureLeading,
      rstripSlash, collapseSlash]
  refine ⟨by decide, hspec, ?_⟩
  rw [hspec]
  decide

/-- Witness for C5_normalize_invariance at p = "/a//b". -/
theorem C5_normalize_invariance_witness :
    ('%' ∉ ['/', 'a', '/', '/', 'b']) ∧
    (containsTriple ['/', 'a', '/', '/', 'b'] = false) ∧
    path_allowed [fun s => s == ['/', 'a', '/', 'b']] ['/', 'a', '/', '/', 'b'] =
      path_allowed [fun s => s == ['/', 'a', '/', 'b']]
        (specNormalize ['/', 'a', '/', '/', 'b']) :=
  ⟨by decide, by decide,
   C5_normalize_invariance [fun s => s == ['/', 'a', '/', 'b']] ['/', 'a', '/', '/', 'b']
     (by decide) (by decide)⟩

/-! ## Claim C7 -/

theorem keyLe_trans (a b c : ℕ × ℤ) (h1 : keyLe a b = true)
    (h2 : keyLe b c = true) : keyLe a c = true := by
  obtain ⟨a1, a2⟩ := a
  obtain ⟨b1, b2⟩ := b
  obtain ⟨c1, c2⟩ := c
  simp only [keyLe, decide_eq_true_eq] at *
  omega

theorem keyLe_total (a b : ℕ × ℤ) : (keyLe a b || keyLe b a) = true := by
  obtain ⟨a1, a2⟩ := a
  obtain ⟨b1, b2⟩ := b
  simp only [keyLe, Bool.or_eq_true, decide_eq_true_eq]
  omega

theorem sortKey_fst (m : HealthMap) (p : Provider) :
    (sortKey m p).1 = if healthyFor m p then 0 else 1 := by
  unfold sortKey healthyFor
  cases hLookup m p.key with
  | none => simp
  | some e => cases e.healthy <;> simp

/-- Claim C7: pick_best filters providers through should_attempt
(pickFiltered, which threads the breaker mutations), falls back to the
original list when the filter empties it, and returns that base list
sorted ascending by the composite key (healthy flag, circuit penalty +
avg − 10·weight) evaluated on the threaded health map — hence a
permutation of the base that is pairwise ordered by the key, and in
which every provider sorted as unhealthy only ever follows providers
sorted as healthy (missing entries counting as healthy). -/
theorem C7_pick_best (providers : List Provider) (m : HealthMap) (now : ℚ) :
    List.Perm (pick_best providers m now).1
      (if (pickFiltered providers m now).1.isEmpty then providers
       else (pickFiltered providers m now).1) ∧
    List.Pairwise (fun a b =>
      keyLe (sortKey (pickFiltered providers m now).2 a)
            (sortKey (pickFiltered providers m now).2 b) = true)
      (pick_best providers m now).1 ∧
    List.Pairwise (fun a b =>
      healthyFor (pickFiltered providers m now).2 a = false →
      healthyFor (pickFiltered providers m now).2 b = false)
      (pick_best providers m now).1 := by
  set h1 := (pickFiltered providers m now).2 with hh1
  set base := (if (pickFiltered providers m now).1.isEmpty then providers
       else (pickFiltered providers m now).1) with hbase
  have hdef : (pick_best providers m now).1 =
      base.mergeSort (fun a b => keyLe (sortKey h1 a) (sortKey h1 b)) := by
    simp [pick_best, hbase, hh1]
  have hperm := List.mergeSort_perm base
    (fun a b => keyLe (sortKey h1 a) (sortKey h1 b))
  have hsorted := @List.sorted_mergeSort _
    (fun a b => keyLe (sortKey h1 a) (sortKey h1 b))
    (fun a b c hab hbc => keyLe_trans _ _ _ hab hbc)
    (fun a b => keyLe_total (sortKey h1 a) (sortKey h1 b))
    base
  refine ⟨by rw [hdef]; exact hperm, by rw [hdef]; exact hsorted, ?_⟩
  rw [hdef]
  refine hsorted.imp ?_
  intro a b hab hfa
  have hfa1 : (sortKey h1 a).1 = 1 := by rw [sortKey_fst, hfa]; rfl
  have hb1 : (sortKey h1 b).1 ≤ 1 := by
    rw [sortKey_fst]
    cases healthyFor h1 b <;> simp
  simp only [keyLe, decide_eq_true_eq, hfa1] at hab
  have hbeq : (sortKey h1 b).1 = 1 := by omega
  by_cases hb : healthyFor h1 b = true
  · rw [sortKey_fst, hb] at hbeq; simp at hbeq
  · simpa using hb

/-! ## Claim C9 -/

theorem OInv_init (n : ℕ) (now : ℚ) : OInv n now (oinit n) := by
  refine ⟨by simp [oinit], ?_, ?_, ?_, ?_⟩
  · intro i h
    rcases lt_or_ge i n with hi | hi
    · simp [oinit, List.getElem?_replicate, hi] at h
    · simp [oinit, List.getElem?_eq_none, hi] at h
  · intro i h
    simp [oinit] at h
  · intro _
    refine ⟨rfl, ?_⟩
    intro i t h
    rcases lt_or_ge i n with hi | hi
    · simp [oinit, List.getElem?_replicate, hi] at h
    · simp [oinit, List.getElem?_eq_none, hi] at h
  · intro tok exp h
    simp [oinit] at h

theorem OInv_step (n : ℕ) (now : ℚ) (cfg : OConfig) (i : ℕ)
    (hinv : OInv n now cfg) : OInv n now (ostep now cfg i) := by
  obtain ⟨cache, lock, fc, tasks⟩ := cfg
  obtain ⟨hlen, hf2l, hl2f, hnone, hsome⟩ := hinv
  simp only at hlen hf2l hl2f hnone hsome
  match hti : tasks[i]? with
  | none =>
      simpa [ostep, hti] using ⟨hlen, hf2l, hl2f, hnone, hsome⟩
  | some OTask.ready =>
      have hilt : i < tasks.length := by
        by_contra hge
        simp [List.getElem?_eq_none (le_of_not_lt hge)] at hti
      match hl : lock with
      | some j =>
          simpa [ostep, hti, hl] using ⟨hlen, hf2l, hl2f, hnone, hsome⟩
      | none =>
          match hc : cache with
          | some (tok, exp) =>
              obtain ⟨hfc, hexp, hnf, hdone⟩ := hsome tok exp rfl
              have hcond : now < exp - 60 := by rw [hexp]; linarith
              simp only [ostep, hti, hc, if_pos hcond]
              refine ⟨by simpa using hlen, ?_, ?_, ?_, ?_⟩
              · intro j hj
                by_cases hij : i = j
                · subst hij
                  rw [List.getElem?_set_self hilt] at hj
                  simp at hj
                · rw [List.getElem?_set_ne hij] at hj
                  exact absurd hj (hnf j)
              · intro j hj
                simp at hj
              · intro hcn
                simp at hcn
              · intro tok2 exp2 hc2
                simp only [Option.some.injEq, Prod.mk.injEq] at hc2
                obtain ⟨h1, h2⟩ := hc2
                subst h1; subst h2
                refine ⟨hfc, hexp, ?_, ?_⟩
                · intro j hj
                  by_cases hij : i = j
                  · subst hij
                    rw [List.getElem?_set_self hilt] at hj
                    simp at hj
                  · rw [List.getElem?_set_ne hij] at hj
                    exact hnf j hj
                · intro j t hj
                  by_cases hij : i = j
                  · subst hij
                    rw [List.getElem?_set_self hilt] at hj
                    simp at hj
                    exact hj.symm
                  · rw [List.getElem?_set_ne hij] at hj
                    exact hdone j t hj
          | none =>
              obtain ⟨hfc, hnd⟩ := hnone rfl
              simp only [ostep, hti, hc]
              refine ⟨by simpa using hlen, ?_, ?_, ?_, ?_⟩
              · intro j hj
                by_cases hij : i = j
                · subst hij; rfl
                · rw [List.getElem?_set_ne hij] at hj
                  exact absurd (hf2l j hj) (by simp)
              · intro j hj
                simp only [Option.some.injEq] at hj
                subst hj
                simp [List.getElem?_set_self hilt]
              · intro _
                refine ⟨hfc, ?_⟩
                intro j t hj
                by_cases hij : i = j
                · subst hij
                  rw [List.getElem?_set_self hilt] at hj
                  simp at hj
                · rw [List.getElem?_set_ne hij] at hj
                  exact hnd j t hj
              · intro tok2 exp2 hc2
                simp at hc2
  | some OTask.fetching =>
      have hilt : i < tasks.length := by
        by_contra hge
        simp [List.getElem?_eq_none (le_of_not_lt hge)] at hti
      have hlock : lock = some i := hf2l i hti
      have hcnone : cache = none := by
        match hc : cache with
        | none => rfl
        | some (tok, exp) =>
            exact absurd hti ((hsome tok exp rfl).2.2.1 i)
      obtain ⟨hfc, hnd⟩ := hnone hcnone
      simp only [ostep, hti]
      refine ⟨by simpa using hlen, ?_, ?_, ?_, ?_⟩
      · intro j hj
        by_cases hij : i = j
        · subst hij
          rw [List.getElem?_set_self hilt] at hj
          simp at hj
        · rw [List.getElem?_set_ne hij] at hj
          have := hf2l j hj
          rw [hlock] at this
          simp only [Option.some.injEq] at this
          exact absurd this hij
      · intro j hj
        simp at hj
      · intro hcn
        simp at hcn
      · intro tok2 exp2 hc2
        simp only [Option.some.injEq, Prod.mk.injEq] at hc2
        obtain ⟨h1, h2⟩ := hc2
        subst h1; subst h2
        refine ⟨show fc + 1 = 1 by omega, rfl, ?_, ?_⟩
        · intro j hj
          by_cases hij : i = j
          · subst hij
            rw [List.getElem?_set_self hilt] at hj
            simp at hj
          · rw [List.getElem?_set_ne hij] at hj
            have := hf2l j hj
            rw [hlock] at this
            simp only [Option.some.injEq] at this
            exact absurd this hij
        · intro j t hj
          by_cases hij : i = j
          · subst hij
            rw [List.getElem?_set_self hilt] at hj
            simp at hj
            exact hj.symm
          · rw [List.getElem?_set_ne hij] at hj
            exact absurd hj (hnd j t)
  | some (OTask.done t) =>
      simpa [ostep, hti] using ⟨hlen, hf2l, hl2f, hnone, hsome⟩

theorem OInv_run (n : ℕ) (now : ℚ) (sched : List ℕ) (cfg : OConfig)
    (hinv : OInv n now cfg) : OInv n now (orun now cfg sched) := by
  induction sched generalizing cfg with
  | nil => simpa [orun] using hinv
  | cons s rest ih =>
      simpa [orun] using ih (ostep now cfg s) (OInv_step n now cfg s hinv)

/-- Claim C9: under any cooperative schedule in which all of the N ≥ 1
concurrent get_token callers for one key (starting with no cached token)
finish, exactly one token-endpoint fetch was executed and every caller
returned the same access-token string. -/
theorem C9_single_flight (n : ℕ) (sched : List ℕ) (now : ℚ) (hn : 0 < n)
    (hdone : ∀ i < n, ∃ t, (orun now (oinit n) sched).tasks[i]? =
      some (OTask.done t)) :
    (orun now (oinit n) sched).fetchCount = 1 ∧
    (∀ (i j : ℕ) (ti tj : String),
      (orun now (oinit n) sched).tasks[i]? = some (OTask.done ti) →
      (orun now (oinit n) sched).tasks[j]? = some (OTask.done tj) →
      ti = tj) := by
  have hinv := OInv_run n now sched (oinit n) (OInv_init n now)
  obtain ⟨hlen, hf2l, hl2f, hnone, hsome⟩ := hinv
  obtain ⟨t0, h0⟩ := hdone 0 hn
  match hc : (orun now (oinit n) sched).cache with
  | none => exact absurd h0 ((hnone hc).2 0 t0)
  | some (tok, exp) =>
      obtain ⟨hfc, _, _, hd⟩ := hsome tok exp hc
      refine ⟨hfc, ?_⟩
      intro i j ti tj hi hj
      rw [hd i ti hi, hd j tj hj]

theorem C9_sched_done : ∀ i < 2, ∃ t, (orun 0 (oinit 2) [0, 1, 0, 1]).tasks[i]? =
    some (OTask.done t) := by
  intro i hi
  interval_cases i
  · exact ⟨newToken 0, by norm_num [orun, ostep, oinit, List.foldl]⟩
  · exact ⟨newToken 0, by norm_num [orun, ostep, oinit, List.foldl]⟩

/-- Witness for C9_single_flight: two tasks, interleaved schedule. -/
theorem C9_single_flight_witness :
    (0 < 2) ∧
    (∀ i < 2, ∃ t, (orun 0 (oinit 2) [0, 1, 0, 1]).tasks[i]? =
      some (OTask.done t)) ∧
    ((orun 0 (oinit 2) [0, 1, 0, 1]).fetchCount = 1 ∧
     (∀ (i j : ℕ) (ti tj : String),
       (orun 0 (oinit 2) [0, 1, 0, 1]).tasks[i]? = some (OTask.done ti) →
       (orun 0 (oinit 2) [0, 1, 0, 1]).tasks[j]? = some (OTask.done tj) →
       ti = tj)) :=
  ⟨by norm_num, C9_sched_done,
   C9_single_flight 2 [0, 1, 0, 1] 0 (by norm_num) C9_sched_done⟩

/-! ## Claim C10 -/

/-- Claim C10: in process_dict, when an exact-key rule names a key whose
value is not a string, apply_action passes the value through and the
exact-key match takes precedence over recursion, so the value comes back
completely unchanged and nested rules under that key are never applied. -/
theorem C10_exact_key_non_string (cipher : List Char → List Char)
    (rules : List (List Char × PIIAction)) (k : List Char) (act : PIIAction)
    (v : Json) (rest : List (List Char × Json))
    (h1 : ruleFind rules k = some act) (h2 : ∀ s, v ≠ Json.str s) :
    apply_action cipher v act = v ∧
    process_dict cipher (Json.obj ((k, v) :: rest)) rules =
      Json.obj ((k, v) :: processFields cipher rest rules) := by
  have ha : apply_action cipher v act = v := by
    cases v with
    | null => rfl
    | bool b => rfl
    | num q => rfl
    | str s => exact absurd rfl (h2 s)
    | arr items => rfl
    | obj fields => rfl
  have hv : processValue cipher k v rules = v := by
    rw [processValue, h1]
    exact ha
  refine ⟨ha, ?_⟩
  simp only [process_dict, processFields, hv]

/-- Witness for C10_exact_key_non_string: rules over "k" and "k.s", and
a nested object value under "k". -/
theorem C10_exact_key_non_string_witness :
    ruleFind [(['k'], PIIAction.hash), (['k', '.', 's'], PIIAction.hash)] ['k'] =
      some PIIAction.hash ∧
    (∀ s, Json.obj [(['s'], Json.str ['x'])] ≠ Json.str s) ∧
    (apply_action id (Json.obj [(['s'], Json.str ['x'])]) PIIAction.hash =
       Json.obj [(['s'], Json.str ['x'])] ∧
     process_dict id
        (Json.obj [(['k'], Json.obj [(['s'], Json.str ['x'])])])
        [(['k'], PIIAction.hash), (['k', '.', 's'], PIIAction.hash)] =
      Json.obj [(['k'], Json.obj [(['s'], Json.str ['x'])])]) := by
  have h1 : ruleFind [(['k'], PIIAction.hash), (['k', '.', 's'], PIIAction.hash)]
      ['k'] = some PIIAction.hash := rfl
  have h2 : ∀ s, Json.obj [(['s'], Json.str ['x'])] ≠ Json.str s :=
    fun s h => Json.noConfusion h
  have hmain := C10_exact_key_non_string id
    [(['k'], PIIAction.hash), (['k', '.', 's'], PIIAction.hash)] ['k']
    PIIAction.hash (Json.obj [(['s'], Json.str ['x'])]) [] h1 h2
  exact ⟨h1, h2, hmain.1, by simpa [processFields] using hmain.2⟩

end ApiBridge
namespace ApiBridge

theorem dLookup_dInsert {κ α : Type} [DecidableEq κ]
    (m : List (κ × α)) (k : κ) (v : α) : dLookup (dInsert m k v) k = some v := by
  induction m with
  | nil => simp [dInsert, dLookup]
  | cons hd tl ih =>
      by_cases h : hd.1 = k
      · simp [dInsert, h, dLookup]
      · simpa [dInsert, h, dLookup, List.find?_cons] using ih

theorem successBranch_result (policy : Policy)
    (connector full_path method : String) (prov : Provider) (r : UpResp)
    (ck : Option String) (st : GatewayState) (env : Env) (now : ℚ)
    (month : String) (calls : List (String × ℕ)) :
    (resultStatus (successBranch policy connector full_path method prov r ck
        st env now month calls).result = 402 ∧
     resultContent (successBranch policy connector full_path method prov r ck
        st env now month calls).result = budgetExceededBody) ∨
    dLookup (resultHeaders (successBranch policy connector full_path method
        prov r ck st env now month calls).result) "X-ApiBridge-Cache" =
      some "miss" := by
  simp only [successBranch]
  cases hbg : (budgetGate policy connector
      { st with health := mark_success st.health prov.key r.latency_ms now }.budget
      (if (getHeaderCI r.headers "content-type").startsWith "application/json" then
        match r.json with
        | none => (r.content, buildHeadersPassthrough r.headers policy.passthrough_headers)
        | some data =>
            ((fun pd => (env.dumps pd.1,
              match pd.2 with
              | some d => dInsert (dInsert (buildHeadersPassthrough r.headers policy.passthrough_headers) "x-apibridge-drift" "1") "x-apibridge-drift-msg" (String.mk (d.data.take 180))
              | none => buildHeadersPassthrough r.headers policy.passthrough_headers))
              (processJson policy env prov r data))
      else (r.content, buildHeadersPassthrough r.headers policy.passthrough_headers)).2
      month env.fmt2).2 with
  | none => exact Or.inl ⟨by simp [hbg, resultStatus], by simp [hbg, resultContent]⟩
  | some out2 => exact Or.inr (by simp [hbg, resultHeaders, dLookup_dInsert])

/-- Claim C2: on a GET with positive cache_ttl and a fresh cached entry,
proxy returns the cached status, body and headers verbatim with no upstream
call; since cache_set runs before the observability headers are attached,
the replayed headers carry no X-ApiBridge-Cache marker, while every fresh
success response either is the 402 budget block or carries
X-ApiBridge-Cache: miss. -/
theorem C2_cache_hit (policies : List (String × Policy)) (connector full_path : String)
    (req : Request) (st : GatewayState) (env : Env) (now : ℚ) (month : String)
    (policy : Policy) (cands : List Provider) (health1 : HealthMap)
    (content : List ℕ) (hdrs : Headers) (status : ℕ)
    (c2 : List (String × CacheEntry))
    (hpol : dLookup policies connector = some policy)
    (hpath : path_allowed policy.allow_paths ('/' :: full_path.data) = true)
    (hrl : (rl_allow st.buckets ("rl:" ++ connector) policy.rate_capacity
      policy.rate_refill now).1 = true)
    (hsel : selectProviders policy connector st.health now =
      some (cands, health1))
    (hm : req.method = "GET") (httl : 0 < policy.cache_ttl)
    (hcg : cache_get st.cache (gw_cache_key connector
        (rstripS (cands.headD ⟨"", "", 1, "", none⟩).base_url ++ "/" ++
          full_path) req.method req.query_str) now =
      (some (content, hdrs, status), c2)) :
    (proxy policies connector full_path req st env now month =
      ⟨.response status content hdrs,
       ⟨(rl_allow st.buckets ("rl:" ++ connector) policy.rate_capacity
           policy.rate_refill now).2,
        st.rlStore, c2, health1, st.budget⟩, []⟩) ∧
    (∀ (policy2 : Policy) (connector2 fp2 m2 : String) (prov : Provider)
      (r : UpResp) (ck : Option String) (st2 : GatewayState) (now2 : ℚ)
      (month2 : String) (calls2 : List (String × ℕ)),
      (resultStatus (successBranch policy2 connector2 fp2 m2 prov r ck st2
          env now2 month2 calls2).result = 402 ∧
       resultContent (successBranch policy2 connector2 fp2 m2 prov r ck st2
          env now2 month2 calls2).result = budgetExceededBody) ∨
      dLookup (resultHeaders (successBranch policy2 connector2 fp2 m2 prov r
          ck st2 env now2 month2 calls2).result) "X-ApiBridge-Cache" =
        some "miss") := by
  constructor
  · simp only [proxy, hpol, hpath, Bool.not_true, if_false, ite_false, hrl,
      hsel]
    simp only [hm, httl, and_true, if_pos, gt_iff_lt]
    rw [hm] at hcg
    simp only [List.headD_eq_head?_getD] at hcg
    simp [hcg]
  · intro policy2 connector2 fp2 m2 prov r ck st2 now2 month2 calls2
    exact successBranch_result policy2 connector2 fp2 m2 prov r ck st2 env
      now2 month2 calls2

end ApiBridge

namespace ApiBridge

/-- Claim C2 counterexample: a first request misses and is served fresh with
the X-ApiBridge-Cache: miss header; the identical second request one second
later is answered from the cache with the same status and body, no upstream
call, but its headers contain no X-ApiBridge-Cache entry at all — the spec's
promised "hit" value never appears, because cache_set stored the headers
before the observability headers were added. -/
theorem C2_counterexample :
    dLookup (resultHeaders (proxy [("c", { basePolicy with cache_ttl := 60 })]
      "c" "p" getReq emptyState bareEnv 0 "m").result) "X-ApiBridge-Cache" =
      some "miss" ∧
    resultStatus (proxy [("c", { basePolicy with cache_ttl := 60 })] "c" "p"
      getReq (proxy [("c", { basePolicy with cache_ttl := 60 })] "c" "p"
        getReq emptyState bareEnv 0 "m").state bareEnv 1 "m").result = 200 ∧
    resultContent (proxy [("c", { basePolicy with cache_ttl := 60 })] "c" "p"
      getReq (proxy [("c", { basePolicy with cache_ttl := 60 })] "c" "p"
        getReq emptyState bareEnv 0 "m").state bareEnv 1 "m").result =
      utf8Encode "hello".data ∧
    (proxy [("c", { basePolicy with cache_ttl := 60 })] "c" "p"
      getReq (proxy [("c", { basePolicy with cache_ttl := 60 })] "c" "p"
        getReq emptyState bareEnv 0 "m").state bareEnv 1 "m").calls = [] ∧
    dLookup (resultHeaders (proxy [("c", { basePolicy with cache_ttl := 60 })]
      "c" "p" getReq (proxy [("c", { basePolicy with cache_ttl := 60 })] "c"
        "p" getReq emptyState bareEnv 0 "m").state bareEnv 1 "m").result)
      "X-ApiBridge-Cache" = none := by
  refine ⟨?_, ?_, ?_, ?_, ?_⟩ <;>
    (norm_num [proxy, basePolicy, bareEnv, bareUpstream, emptyState, getReq,
      path_allowed,
      percentDecode, pyReplaceDouble, rstripSlash, containsDotDot,
      ensureLeading, rl_allow, dLookup, dInsert, TokenBucket.allow,
      TokenBucket.init, selectProviders, providerLoop, attemptLoop,
      successBranch, budgetGate, mark_success, hInsert, hLookup,
      buildHeadersPassthrough, getHeaderCI, plainUpstream, resultStatus,
      resultContent, resultHeaders, rstripS, dPop, dUpdate, applyAuth,
      gw_cache_key, cache_get, cache_set]
     <;> try decide)
  exact ⟨"X-ApiBridge-Cache", by decide⟩

theorem C2_cache_hit_witness :
    (proxy [("c", c2pol)] "c" "p" getReq c2state bareEnv 0 "m" =
      ⟨.response 200 (utf8Encode "hi".data) [],
       ⟨(rl_allow c2state.buckets ("rl:" ++ "c") c2pol.rate_capacity
           c2pol.rate_refill 0).2,
        c2state.rlStore, c2state.cache, c2state.health, c2state.budget⟩,
       []⟩) ∧
    (∀ (policy2 : Policy) (connector2 fp2 m2 : String) (prov : Provider)
      (r : UpResp) (ck : Option String) (st2 : GatewayState) (now2 : ℚ)
      (month2 : String) (calls2 : List (String × ℕ)),
      (resultStatus (successBranch policy2 connector2 fp2 m2 prov r ck st2
          bareEnv now2 month2 calls2).result = 402 ∧
       resultContent (successBranch policy2 connector2 fp2 m2 prov r ck st2
          bareEnv now2 month2 calls2).result = budgetExceededBody) ∨
      dLookup (resultHeaders (successBranch policy2 connector2 fp2 m2 prov r
          ck st2 bareEnv now2 month2 calls2).result) "X-ApiBridge-Cache" =
        some "miss") :=
  C2_cache_hit [("c", c2pol)] "c" "p" getReq c2state bareEnv 0 "m" c2pol
    [⟨"default", "http://u", 1, "c:default", none⟩] c2state.health
    (utf8Encode "hi".data) [] 200 c2state.cache
    (by norm_num [dLookup])
    (by norm_num [c2pol, basePolicy, path_allowed, percentDecode,
      pyReplaceDouble, rstripSlash, containsDotDot, ensureLeading])
    (by norm_num [c2state, rl_allow, TokenBucket.allow, TokenBucket.init,
      dLookup, c2pol, basePolicy])
    (by norm_num [selectProviders, c2pol, basePolicy, c2state,
      show ("c" ++ ":default" : String) = "c:default" from by decide])
    rfl
    (by norm_num [c2pol, basePolicy])
    (by norm_num [c2state, c2entry, cache_get, gw_cache_key,
      dLookup, getReq,
      show ("c" ++ ":" ++ "GET" ++ ":" ++
        (rstripS "http://u" ++ "/" ++ "p") ++ "?" : String) =
        "c:GET:http://u/p?" from by decide])

end ApiBridge

namespace ApiBridge

theorem budgetGate_block (policy : Policy) (connector : String)
    (bst : BudgetStore) (out : Headers) (month : String) (f : ℚ → String)
    (bc : BudgetCfg) (maxv : ℚ)
    (hc : policy.cost_per_call_usd > 0) (hb : policy.budget = some bc)
    (hmx : bc.monthly_usd_max = some maxv) (hmz : maxv ≠ 0)
    (hsp : get_cost (add_cost bst connector policy.cost_per_call_usd month)
      connector month > maxv)
    (hblk : bc.on_exceed.getD "block" = "block") :
    budgetGate policy connector bst out month f =
      (add_cost bst connector policy.cost_per_call_usd month, none) := by
  simp [budgetGate, hc, hb, hmx, hmz, hsp, hblk]

theorem budgetGate_downgrade (policy : Policy) (connector : String)
    (bst : BudgetStore) (out : Headers) (month : String) (f : ℚ → String)
    (bc : BudgetCfg) (maxv : ℚ)
    (hc : policy.cost_per_call_usd > 0) (hb : policy.budget = some bc)
    (hmx : bc.monthly_usd_max = some maxv) (hmz : maxv ≠ 0)
    (hsp : get_cost (add_cost bst connector policy.cost_per_call_usd month)
      connector month > maxv)
    (hdg : bc.on_exceed.getD "block" ≠ "block") :
    budgetGate policy connector bst out month f =
      (add_cost bst connector policy.cost_per_call_usd month,
       some (dInsert out "x-apibridge-budget" ("exceeded:" ++
         f (get_cost (add_cost bst connector policy.cost_per_call_usd month)
           connector month)))) := by
  simp [budgetGate, hc, hb, hmx, hmz, hsp, hdg]

theorem budgetGate_fst (policy : Policy) (connector : String)
    (bst : BudgetStore) (out : Headers) (month : String) (f : ℚ → String) :
    (budgetGate policy connector bst out month f).1 =
      if 0 < policy.cost_per_call_usd then
        add_cost bst connector policy.cost_per_call_usd month
      else bst := by
  by_cases hc : 0 < policy.cost_per_call_usd
  · simp only [budgetGate, gt_iff_lt, if_pos hc]
    cases hb : policy.budget with
    | none => simp [hb]
    | some bc =>
        simp only [hb]
        cases hmx : bc.monthly_usd_max with
        | none => simp [hmx]
        | some maxv =>
            simp only [hmx]
            by_cases hmz : maxv ≠ 0
            · simp only [if_pos hmz]
              split
              · split <;> simp
              · simp
            · simp [hmz]
  · simp [budgetGate, hc]

end ApiBridge

namespace ApiBridge

theorem dLookup_dInsert_ne {κ α : Type} [DecidableEq κ]
    (m : List (κ × α)) (k k2 : κ) (v : α) (h : ¬ k2 = k) :
    dLookup (dInsert m k2 v) k = dLookup m k := by
  induction m with
  | nil => simp [dInsert, dLookup, h]
  | cons hd tl ih =>
      by_cases h2 : hd.1 = k2
      · simp [dInsert, h2, dLookup, List.find?_cons, h]
      · simp only [dInsert, h2, if_false, ite_false]
        simp only [dLookup, List.find?_cons] at ih ⊢
        by_cases h3 : hd.1 = k
        · simp [h3]
        · simpa [h3] using ih

theorem successBranch_block (policy : Policy)
    (connector full_path method : String) (prov : Provider) (r : UpResp)
    (ck : Option String) (st : GatewayState) (env : Env) (now : ℚ)
    (month : String) (calls : List (String × ℕ)) (bc : BudgetCfg) (maxv : ℚ)
    (hc : policy.cost_per_call_usd > 0) (hb : policy.budget = some bc)
    (hmx : bc.monthly_usd_max = some maxv) (hmz : maxv ≠ 0)
    (hsp : get_cost (add_cost st.budget connector policy.cost_per_call_usd
      month) connector month > maxv)
    (hblk : bc.on_exceed.getD "block" = "block") :
    successBranch policy connector full_path method prov r ck st env now
      month calls =
    ⟨.response 402 budgetExceededBody [("content-type", "application/json")],
     ⟨st.buckets, st.rlStore, st.cache,
      mark_success st.health prov.key r.latency_ms now,
      add_cost st.budget connector policy.cost_per_call_usd month⟩,
     calls⟩ := by
  simp only [successBranch]
  rw [budgetGate_block policy connector _ _ month env.fmt2 bc maxv hc hb hmx
    hmz hsp hblk]

theorem successBranch_downgrade (policy : Policy)
    (connector full_path method : String) (prov : Provider) (r : UpResp)
    (ck : Option String) (st : GatewayState) (env : Env) (now : ℚ)
    (month : String) (calls : List (String × ℕ)) (bc : BudgetCfg) (maxv : ℚ)
    (hc : policy.cost_per_call_usd > 0) (hb : policy.budget = some bc)
    (hmx : bc.monthly_usd_max = some maxv) (hmz : maxv ≠ 0)
    (hsp : get_cost (add_cost st.budget connector policy.cost_per_call_usd
      month) connector month > maxv)
    (hdg : ¬ bc.on_exceed.getD "block" = "block") :
    resultStatus (successBranch policy connector full_path method prov r ck
      st env now month calls).result = r.status ∧
    dLookup (resultHeaders (successBranch policy connector full_path method
      prov r ck st env now month calls).result) "x-apibridge-budget" =
      some ("exceeded:" ++ env.fmt2 (get_cost (add_cost st.budget connector
        policy.cost_per_call_usd month) connector month)) ∧
    (successBranch policy connector full_path method prov r ck st env now
      month calls).state.budget =
      add_cost st.budget connector policy.cost_per_call_usd month := by
  simp only [successBranch]
  rw [budgetGate_downgrade policy connector _ _ month env.fmt2 bc maxv hc hb
    hmx hmz hsp hdg]
  refine ⟨by simp [resultStatus], ?_, by simp⟩
  simp only [resultHeaders]
  rw [dLookup_dInsert_ne _ _ _ _ (by decide),
    dLookup_dInsert_ne _ _ _ _ (by decide),
    dLookup_dInsert_ne _ _ _ _ (by decide),
    dLookup_dInsert]

end ApiBridge

namespace ApiBridge

theorem successBranch_budget (policy : Policy)
    (connector full_path method : String) (prov : Provider) (r : UpResp)
    (ck : Option String) (st : GatewayState) (env : Env) (now : ℚ)
    (month : String) (calls : List (String × ℕ)) :
    (successBranch policy connector full_path method prov r ck st env now
      month calls).state.budget =
    (if 0 < policy.cost_per_call_usd then
      add_cost st.budget connector policy.cost_per_call_usd month
    else st.budget) := by
  simp only [successBranch]
  cases hbg : (budgetGate policy connector
      { st with health := mark_success st.health prov.key r.latency_ms now }.budget
      (if (getHeaderCI r.headers "content-type").startsWith "application/json" then
        match r.json with
        | none => (r.content, buildHeadersPassthrough r.headers policy.passthrough_headers)
        | some data =>
            ((fun pd => (env.dumps pd.1,
              match pd.2 with
              | some d => dInsert (dInsert (buildHeadersPassthrough r.headers policy.passthrough_headers) "x-apibridge-drift" "1") "x-apibridge-drift-msg" (String.mk (d.data.take 180))
              | none => buildHeadersPassthrough r.headers policy.passthrough_headers))
              (processJson policy env prov r data))
      else (r.content, buildHeadersPassthrough r.headers policy.passthrough_headers)).2
      month env.fmt2).2 with
  | none =>
      have h1 := budgetGate_fst policy connector
        { st with health := mark_success st.health prov.key r.latency_ms now }.budget
        (if (getHeaderCI r.headers "content-type").startsWith "application/json" then
          match r.json with
          | none => (r.content, buildHeadersPassthrough r.headers policy.passthrough_headers)
          | some data =>
              ((fun pd => (env.dumps pd.1,
                match pd.2 with
                | some d => dInsert (dInsert (buildHeadersPassthrough r.headers policy.passthrough_headers) "x-apibridge-drift" "1") "x-apibridge-drift-msg" (String.mk (d.data.take 180))
                | none => buildHeadersPassthrough r.headers policy.passthrough_headers))
                (processJson policy env prov r data))
        else (r.content, buildHeadersPassthrough r.headers policy.passthrough_headers)).2
        month env.fmt2
      simp [hbg, h1]
  | some out2 =>
      have h1 := budgetGate_fst policy connector
        { st with health := mark_success st.health prov.key r.latency_ms now }.budget
        (if (getHeaderCI r.headers "content-type").startsWith "application/json" then
          match r.json with
          | none => (r.content, buildHeadersPassthrough r.headers policy.passthrough_headers)
          | some data =>
              ((fun pd => (env.dumps pd.1,
                match pd.2 with
                | some d => dInsert (dInsert (buildHeadersPassthrough r.headers policy.passthrough_headers) "x-apibridge-drift" "1") "x-apibridge-drift-msg" (String.mk (d.data.take 180))
                | none => buildHeadersPassthrough r.headers policy.passthrough_headers))
                (processJson policy env prov r data))
        else (r.content, buildHeadersPassthrough r.headers policy.passthrough_headers)).2
        month env.fmt2
      simp [hbg, h1]

theorem successBranch_no_error (policy : Policy)
    (connector full_path method : String) (prov : Provider) (r : UpResp)
    (ck : Option String) (st : GatewayState) (env : Env) (now : ℚ)
    (month : String) (calls : List (String × ℕ)) (s : ℕ) (d : String) :
    ¬ (successBranch policy connector full_path method prov r ck st env now
      month calls).result = .httpError s d := by
  simp only [successBranch]
  cases hbg : (budgetGate policy connector
      { st with health := mark_success st.health prov.key r.latency_ms now }.budget
      (if (getHeaderCI r.headers "content-type").startsWith "application/json" then
        match r.json with
        | none => (r.content, buildHeadersPassthrough r.headers policy.passthrough_headers)
        | some data =>
            ((fun pd => (env.dumps pd.1,
              match pd.2 with
              | some d => dInsert (dInsert (buildHeadersPassthrough r.headers policy.passthrough_headers) "x-apibridge-drift" "1") "x-apibridge-drift-msg" (String.mk (d.data.take 180))
              | none => buildHeadersPassthrough r.headers policy.passthrough_headers))
              (processJson policy env prov r data))
      else (r.content, buildHeadersPassthrough r.headers policy.passthrough_headers)).2
      month env.fmt2).2 with
  | none => simp [hbg]
  | some out2 => simp [hbg]

end ApiBridge

namespace ApiBridge

theorem attemptLoop_budget_fail (policy : Policy)
    (connector full_path method : String) (headers qparams : Headers)
    (body : List ℕ) (prov : Provider) (ck : Option String) (env : Env)
    (now : ℚ) (month : String) (fuel attempt : ℕ) (st : GatewayState)
    (calls : List (String × ℕ)) :
    ∀ (st2 : GatewayState) (err : String) (calls2 : List (String × ℕ)),
      attemptLoop policy connector full_path method headers qparams body prov
        ck env now month fuel attempt st calls = .failedProvider st2 err calls2 →
      st2.budget = st.budget := by
  induction fuel generalizing attempt st calls with
  | zero =>
      intro st2 err calls2 h
      simp only [attemptLoop, AttemptRes.failedProvider.injEq] at h
      rw [← h.1]
  | succ fuel ih =>
      intro st2 err calls2 h
      simp only [attemptLoop] at h
      split at h
      · rename_i r heq
        by_cases h2 : 200 ≤ r.status ∧ r.status < 300
        · simp only [if_pos h2] at h
          cases h
        · simp only [if_neg h2] at h
          by_cases h5 : r.status ≥ 500 ∧ fuel > 0
          · simp only [if_pos h5] at h
            exact ih (attempt + 1) st (calls ++ [(prov.key, attempt)])
              st2 err calls2 h
          · simp only [if_neg h5, AttemptRes.failedProvider.injEq] at h
            rw [← h.1]
      · rename_i msg heq
        by_cases hf : fuel > 0
        · simp only [if_pos hf] at h
          exact ih (attempt + 1) st (calls ++ [(prov.key, attempt)])
            st2 err calls2 h
        · simp only [if_neg hf, AttemptRes.failedProvider.injEq] at h
          rw [← h.1]
      · rename_i ename msg heq
        by_cases hf : fuel > 0
        · simp only [if_pos hf] at h
          exact ih (attempt + 1) st (calls ++ [(prov.key, attempt)])
            st2 err calls2 h
        · simp only [if_neg hf, AttemptRes.failedProvider.injEq] at h
          rw [← h.1]

theorem attemptLoop_finished_no_error (policy : Policy)
    (connector full_path method : String) (headers qparams : Headers)
    (body : List ℕ) (prov : Provider) (ck : Option String) (env : Env)
    (now : ℚ) (month : String) (fuel attempt : ℕ) (st : GatewayState)
    (calls : List (String × ℕ)) :
    ∀ (out : ProxyOut) (s : ℕ) (d : String),
      attemptLoop policy connector full_path method headers qparams body prov
        ck env now month fuel attempt st calls = .finished out →
      ¬ out.result = .httpError s d := by
  induction fuel generalizing attempt st calls with
  | zero =>
      intro out s d h
      simp only [attemptLoop] at h
      cases h
  | succ fuel ih =>
      intro out s d h
      simp only [attemptLoop] at h
      split at h
      · rename_i r heq
        by_cases h2 : 200 ≤ r.status ∧ r.status < 300
        · simp only [if_pos h2, AttemptRes.finished.injEq] at h
          rw [← h]
          exact successBranch_no_error policy connector full_path method prov
            r ck st env now month (calls ++ [(prov.key, attempt)]) s d
        · simp only [if_neg h2] at h
          by_cases h5 : r.status ≥ 500 ∧ fuel > 0
          · simp only [if_pos h5] at h
            exact ih (attempt + 1) st (calls ++ [(prov.key, attempt)])
              out s d h
          · simp only [if_neg h5] at h
            cases h
      · rename_i msg heq
        by_cases hf : fuel > 0
        · simp only [if_pos hf] at h
          exact ih (attempt + 1) st (calls ++ [(prov.key, attempt)]) out s d h
        · simp only [if_neg hf] at h
          cases h
      · rename_i ename msg heq
        by_cases hf : fuel > 0
        · simp only [if_pos hf] at h
          exact ih (attempt + 1) st (calls ++ [(prov.key, attempt)]) out s d h
        · simp only [if_neg hf] at h
          cases h

theorem providerLoop_budget_error (policy : Policy)
    (connector full_path method : String) (incoming params : Headers)
    (body : List ℕ) (ck : Option String) (env : Env) (now : ℚ)
    (month : String) (cands : List Provider) (st : GatewayState)
    (errors : List String) (calls : List (String × ℕ)) :
    ∀ (s : ℕ) (d : String),
      (providerLoop policy connector full_path method incoming params body ck
        env now month cands st errors calls).result = .httpError s d →
      (providerLoop policy connector full_path method incoming params body ck
        env now month cands st errors calls).state.budget = st.budget := by
  induction cands generalizing st errors calls with
  | nil => intro s d _; rfl
  | cons prov rest ih =>
      intro s d h
      simp only [providerLoop] at h ⊢
      generalize heq : attemptLoop policy connector full_path method
        (dUpdate (applyAuth env.oauthToken
          (match policy.auth with | some a => some a | none => prov.auth)
          incoming params prov.key).1 policy.static_headers)
        (dUpdate (applyAuth env.oauthToken
          (match policy.auth with | some a => some a | none => prov.auth)
          incoming params prov.key).2 policy.static_params)
        body prov ck env now month (policy.retries + 1) 0 st calls = res
      rw [heq] at h
      cases res with
      | finished out =>
          exact absurd h (attemptLoop_finished_no_error policy connector
            full_path method _ _ body prov ck env now month
            (policy.retries + 1) 0 st calls out s d heq)
      | failedProvider st2 err calls2 =>
          have hb2 := attemptLoop_budget_fail policy connector full_path
            method _ _ body prov ck env now month (policy.retries + 1) 0 st
            calls st2 err calls2 heq
          rw [ih st2 (errors ++ [err]) calls2 s d h, hb2]

end ApiBridge

namespace ApiBridge

theorem proxy_budget_error (policies : List (String × Policy))
    (connector full_path : String) (req : Request) (st : GatewayState)
    (env : Env) (now : ℚ) (month : String) (s : ℕ) (d : String) :
    (proxy policies connector full_path req st env now month).result =
      .httpError s d →
    (proxy policies connector full_path req st env now month).state.budget =
      st.budget := by
  simp only [proxy]
  split
  · intro _; rfl
  · rename_i policy hpol
    split
    · intro _; rfl
    · split
      · intro _; rfl
      · split
        · intro _; rfl
        · rename_i cands health1 hsel
          split
          · split
            · intro h; simp at h
            · intro h
              exact providerLoop_budget_error policy connector full_path
                req.method _ _ req.body _ env now month cands _ [] [] s d h
          · intro h
            exact providerLoop_budget_error policy connector full_path
              req.method _ _ req.body _ env now month cands _ [] [] s d h

end ApiBridge

namespace ApiBridge

/-- Claim C8: with a per-call cost configured and a nonzero monthly cap
that the accumulated month cost strictly exceeds after charging the call,
the post-success budget step blocks with the canonical 402 body when
on_exceed is "block" (the default) and otherwise attaches
x-apibridge-budget: exceeded:<amount> while returning the upstream status;
the cost is always charged to the connector (policy) key, independent of
the provider, and a pipeline run that ends in an HTTP error never changes
the budget ledger. -/
theorem C8_budget (policy : Policy) (connector full_path method : String)
    (prov : Provider) (r : UpResp) (ck : Option String) (st : GatewayState)
    (env : Env) (now : ℚ) (month : String) (calls : List (String × ℕ))
    (bc : BudgetCfg) (maxv : ℚ)
    (hc : policy.cost_per_call_usd > 0) (hb : policy.budget = some bc)
    (hmx : bc.monthly_usd_max = some maxv) (hmz : maxv ≠ 0)
    (hsp : get_cost (add_cost st.budget connector policy.cost_per_call_usd
      month) connector month > maxv) :
    (bc.on_exceed.getD "block" = "block" →
      successBranch policy connector full_path method prov r ck st env now
        month calls =
      ⟨.response 402 budgetExceededBody
        [("content-type", "application/json")],
       ⟨st.buckets, st.rlStore, st.cache,
        mark_success st.health prov.key r.latency_ms now,
        add_cost st.budget connector policy.cost_per_call_usd month⟩,
       calls⟩) ∧
    (¬ bc.on_exceed.getD "block" = "block" →
      resultStatus (successBranch policy connector full_path method prov r
        ck st env now month calls).result = r.status ∧
      dLookup (resultHeaders (successBranch policy connector full_path method
        prov r ck st env now month calls).result) "x-apibridge-budget" =
        some ("exceeded:" ++ env.fmt2 (get_cost (add_cost st.budget connector
          policy.cost_per_call_usd month) connector month)) ∧
      (successBranch policy connector full_path method prov r ck st env now
        month calls).state.budget =
        add_cost st.budget connector policy.cost_per_call_usd month) ∧
    (∀ (policyB : Policy) (provB : Provider) (rB : UpResp) (fpB mB : String)
      (ckB : Option String) (stB : GatewayState)
      (callsB : List (String × ℕ)),
      (successBranch policyB connector fpB mB provB rB ckB stB env now month
        callsB).state.budget =
      (if 0 < policyB.cost_per_call_usd then
        add_cost stB.budget connector policyB.cost_per_call_usd month
      else stB.budget)) ∧
    (∀ (policies : List (String × Policy)) (fpB : String) (req : Request)
      (stB : GatewayState) (s : ℕ) (e : String),
      (proxy policies connector fpB req stB env now month).result =
        .httpError s e →
      (proxy policies connector fpB req stB env now month).state.budget =
        stB.budget) := by
  refine ⟨?_, ?_, ?_, ?_⟩
  · intro hblk
    exact successBranch_block policy connector full_path method prov r ck st
      env now month calls bc maxv hc hb hmx hmz hsp hblk
  · intro hdg
    exact successBranch_downgrade policy connector full_path method prov r ck
      st env now month calls bc maxv hc hb hmx hmz hsp hdg
  · intro policyB provB rB fpB mB ckB stB callsB
    exact successBranch_budget policyB connector fpB mB provB rB ckB stB env
      now month callsB
  · intro policies fpB req stB s e h
    exact proxy_budget_error policies connector fpB req stB env now month s
      e h

end ApiBridge

namespace ApiBridge

theorem C8_budget_witness :
    ((⟨some (1/2), some "block"⟩ : BudgetCfg).on_exceed.getD "block" =
        "block" →
      successBranch c8pol "c" "x" "GET" c8prov c8resp none emptyState bareEnv
        0 "m" [] =
      ⟨.response 402 budgetExceededBody
        [("content-type", "application/json")],
       ⟨emptyState.buckets, emptyState.rlStore, emptyState.cache,
        mark_success emptyState.health c8prov.key c8resp.latency_ms 0,
        add_cost emptyState.budget "c" c8pol.cost_per_call_usd "m"⟩,
       []⟩) ∧
    (¬ (⟨some (1/2), some "block"⟩ : BudgetCfg).on_exceed.getD "block" =
        "block" →
      resultStatus (successBranch c8pol "c" "x" "GET" c8prov c8resp none
        emptyState bareEnv 0 "m" []).result = c8resp.status ∧
      dLookup (resultHeaders (successBranch c8pol "c" "x" "GET" c8prov c8resp
        none emptyState bareEnv 0 "m" []).result) "x-apibridge-budget" =
        some ("exceeded:" ++ bareEnv.fmt2 (get_cost (add_cost
          emptyState.budget "c" c8pol.cost_per_call_usd "m") "c" "m")) ∧
      (successBranch c8pol "c" "x" "GET" c8prov c8resp none emptyState
        bareEnv 0 "m" []).state.budget =
        add_cost emptyState.budget "c" c8pol.cost_per_call_usd "m") ∧
    (∀ (policyB : Policy) (provB : Provider) (rB : UpResp) (fpB mB : String)
      (ckB : Option String) (stB : GatewayState)
      (callsB : List (String × ℕ)),
      (successBranch policyB "c" fpB mB provB rB ckB stB bareEnv 0 "m"
        callsB).state.budget =
      (if 0 < policyB.cost_per_call_usd then
        add_cost stB.budget "c" policyB.cost_per_call_usd "m"
      else stB.budget)) ∧
    (∀ (policies : List (String × Policy)) (fpB : String) (req : Request)
      (stB : GatewayState) (s : ℕ) (e : String),
      (proxy policies "c" fpB req stB bareEnv 0 "m").result =
        .httpError s e →
      (proxy policies "c" fpB req stB bareEnv 0 "m").state.budget =
        stB.budget) :=
  C8_budget c8pol "c" "x" "GET" c8prov c8resp none emptyState bareEnv 0 "m"
    [] ⟨some (1/2), some "block"⟩ (1/2)
    (by norm_num [c8pol, basePolicy])
    rfl
    rfl
    (by norm_num)
    (by norm_num [get_cost, add_cost, emptyState, c8pol, basePolicy, dLookup,
      dInsert])

end ApiBridge

namespace ApiBridge

/-- Claim C8 counterexample: with cost 1 USD per call and monthly_usd_max
defined as 0 USD with on_exceed "block", the charged month cost (1 USD)
exceeds the cap, yet the pipeline returns the upstream 200 instead of the
mandated 402: the code only enforces the cap when
budget.get("monthly_usd_max") is truthy, and 0 is falsy in Python. -/
theorem C8_counterexample :
    resultStatus (proxy [("c", c8zpol)] "c" "x" getReq emptyState bareEnv 0
      "m").result = 200 ∧
    get_cost (proxy [("c", c8zpol)] "c" "x" getReq emptyState bareEnv 0
      "m").state.budget "c" "m" = 1 ∧
    c8zpol.budget = some ⟨some 0, some "block"⟩ ∧
    c8zpol.cost_per_call_usd = 1 := by
  refine ⟨?_, ?_, rfl, rfl⟩
  · norm_num [proxy, c8zpol, basePolicy, bareEnv, bareUpstream, emptyState,
      getReq, path_allowed, percentDecode, pyReplaceDouble, rstripSlash,
      containsDotDot, ensureLeading, rl_allow, dLookup, dInsert,
      TokenBucket.allow, TokenBucket.init, selectProviders, providerLoop,
      attemptLoop, successBranch, budgetGate, add_cost, get_cost,
      mark_success, hInsert, hLookup, buildHeadersPassthrough, getHeaderCI,
      resultStatus, rstripS, dPop, dUpdate, applyAuth, gw_cache_key,
      cache_get, cache_set]
  · norm_num [proxy, c8zpol, basePolicy, bareEnv, bareUpstream, emptyState,
      getReq, path_allowed, percentDecode, pyReplaceDouble, rstripSlash,
      containsDotDot, ensureLeading, rl_allow, dLookup, dInsert,
      TokenBucket.allow, TokenBucket.init, selectProviders, providerLoop,
      attemptLoop, successBranch, budgetGate, add_cost, get_cost,
      mark_success, hInsert, hLookup, buildHeadersPassthrough, getHeaderCI,
      resultStatus, rstripS, dPop, dUpdate, applyAuth, gw_cache_key,
      cache_get, cache_set]

end ApiBridge
